import Mathlib

/-!
Verification of the kdf-init repository: the kernel command-line parser
(src/kdf-init/src/cmdline.rs), the virtiofs mount orchestrator
(src/kdf-init/src/virtiofs.rs) and the entry point (src/kdf-init/src/main.rs),
shallowly embedded over explicit state passing.  Strings are manipulated at the
character-list level so that the Rust primitives str::split, str::split_once,
str::split_whitespace and str::strip_prefix have direct recursive counterparts.
-/

namespace KdfInit

instance {ε α : Type} [DecidableEq ε] [DecidableEq α] : DecidableEq (Except ε α) :=
  fun a b =>
    match a, b with
    | .ok x, .ok y =>
      if h : x = y then .isTrue (by rw [h]) else .isFalse (by intro hh; cases hh; exact h rfl)
    | .error x, .error y =>
      if h : x = y then .isTrue (by rw [h]) else .isFalse (by intro hh; cases hh; exact h rfl)
    | .ok _, .error _ => .isFalse (by intro hh; cases hh)
    | .error _, .ok _ => .isFalse (by intro hh; cases hh)

/-- A token of the command line, as a list of characters. -/
abbrev Tok := List Char

/-- Embedding of Rust `str::split` on a character predicate: groups between
separator characters, keeping empty groups (so the result is never empty). -/
def splitBy (p : Char → Bool) : List Char → List (List Char)
  | [] => [[]]
  | x :: xs =>
    if p x then [] :: splitBy p xs
    else
      match splitBy p xs with
      | [] => [[x]]
      | g :: gs => (x :: g) :: gs

/-- Rust `str::split(c)` for a single separator character. -/
def splitOnChar (c : Char) (l : List Char) : List (List Char) :=
  splitBy (fun x => x = c) l

/-- Embedding of Rust `str::split_once(c)`: text before the first occurrence of
`c` paired with everything after it, or `none` when `c` does not occur. -/
def splitOnceChar (c : Char) : List Char → Option (List Char × List Char)
  | [] => none
  | x :: xs =>
    if x = c then some ([], xs)
    else (splitOnceChar c xs).map (fun q => (x :: q.1, q.2))

/-- Embedding of Rust `str::strip_prefix`. -/
def stripPre : List Char → List Char → Option (List Char)
  | [], l => some l
  | _ :: _, [] => none
  | p :: ps, x :: xs => if x = p then stripPre ps xs else none

/-- Embedding of Rust `str::split_whitespace`: split on whitespace characters
and drop the empty groups. -/
def splitWs (l : List Char) : List Tok :=
  (splitBy Char.isWhitespace l).filter (fun g => g ≠ [])

/-- Virtiofs mount specification (struct VirtiofsMount in cmdline.rs). -/
structure VirtiofsMount where
  tag : String
  path : String
  with_overlay : Bool
deriving Repr, DecidableEq

/-- Symlink specification (struct Symlink in cmdline.rs). -/
structure Symlink where
  source : String
  target : String
deriving Repr, DecidableEq

/-- Parsed init configuration (struct Config in cmdline.rs).  The Rust
`HashMap<String, String>` for environment variables is modelled as an
association list with overwriting insert. -/
structure Config where
  virtiofs_mounts : List VirtiofsMount
  symlinks : List Symlink
  env_vars : List (String × String)
  command : Option String
deriving Repr, DecidableEq

/-- The `Config::default()` value. -/
def Config.default : Config :=
  { virtiofs_mounts := [], symlinks := [], env_vars := [], command := none }

/-- `HashMap::insert`: overwrite the value when the key is present, append the
binding otherwise. -/
def envInsert (m : List (String × String)) (k v : String) : List (String × String) :=
  if m.any (fun q => q.1 = k) then
    m.map (fun q => if q.1 = k then (k, v) else q)
  else
    m ++ [(k, v)]

/-- Loop body of `parse_virtiofs_mounts` in cmdline.rs: each comma-separated
item is skipped when empty, split on every colon, and accepted with exactly
two or three fields; the third field is compared literally to "Y". -/
def parseVirtiofsList : List Tok → Except String (List VirtiofsMount)
  | [] => .ok []
  | spec :: rest =>
    if spec = [] then parseVirtiofsList rest
    else
      match splitOnChar ':' spec with
      | [tag, path] =>
        (parseVirtiofsList rest).map
          (fun ms => { tag := String.mk tag, path := String.mk path, with_overlay := false } :: ms)
      | [tag, path, overlay] =>
        (parseVirtiofsList rest).map
          (fun ms =>
            { tag := String.mk tag, path := String.mk path,
              with_overlay := overlay = "Y".toList } :: ms)
      | _ => .error ("Invalid virtiofs mount spec: " ++ String.mk spec)

/-- `parse_virtiofs_mounts` in cmdline.rs: split the payload on commas and
parse each item. -/
def parse_virtiofs_mounts (value : Tok) : Except String (List VirtiofsMount) :=
  parseVirtiofsList (splitOnChar ',' value)

/-- Loop body of `parse_symlinks` in cmdline.rs: each comma-separated item is
skipped when empty and split once on the first colon; no colon is an error. -/
def parseSymlinkList : List Tok → Except String (List Symlink)
  | [] => .ok []
  | spec :: rest =>
    if spec = [] then parseSymlinkList rest
    else
      match splitOnceChar ':' spec with
      | some q =>
        (parseSymlinkList rest).map
          (fun ls => { source := String.mk q.1, target := String.mk q.2 } :: ls)
      | none => .error ("Invalid symlink spec: " ++ String.mk spec)

/-- `parse_symlinks` in cmdline.rs. -/
def parse_symlinks (value : Tok) : Except String (List Symlink) :=
  parseSymlinkList (splitOnChar ',' value)

/-- The literal prefix "init.virtiofs=" as characters. -/
def vfsPre : Tok := "init.virtiofs=".toList

/-- The literal prefix "init.symlinks=" as characters. -/
def symPre : Tok := "init.symlinks=".toList

/-- The literal prefix "init.env." as characters. -/
def envPre : Tok := "init.env.".toList

/-- The literal prefix "init.cmd=" as characters. -/
def cmdPre : Tok := "init.cmd=".toList

/-- Per-token step of `parse_cmdline` in cmdline.rs: classify a token by its
recognized prefixes, in the source order of the if/else chain; unrecognized
tokens leave the configuration unchanged. -/
def applyParam (cfg : Config) (tok : Tok) : Except String Config :=
  match stripPre vfsPre tok with
  | some v => (parse_virtiofs_mounts v).map (fun ms => { cfg with virtiofs_mounts := ms })
  | none =>
  match stripPre symPre tok with
  | some v => (parse_symlinks v).map (fun ls => { cfg with symlinks := ls })
  | none =>
  match stripPre envPre tok with
  | some rest =>
    match splitOnceChar '=' rest with
    | some q =>
      .ok { cfg with env_vars := envInsert cfg.env_vars (String.mk q.1) (String.mk q.2) }
    | none => .ok cfg
  | none =>
  match stripPre cmdPre tok with
  | some v => .ok { cfg with command := some (String.mk v) }
  | none => .ok cfg

/-- `parse_cmdline` in cmdline.rs: fold the token classifier over the
whitespace-split command line, starting from the default configuration. -/
def parse_cmdline (cmdline : String) : Except String Config :=
  (splitWs cmdline.toList).foldlM applyParam Config.default

/-- A virtiofs list item the source rejects: non-empty with a colon-split
field count that is neither 2 nor 3. -/
def badV (i : Tok) : Bool :=
  (i != []) && ((splitOnChar ':' i).length != 2) && ((splitOnChar ':' i).length != 3)

/-- A symlink list item the source rejects: non-empty with no colon. -/
def badS (i : Tok) : Bool :=
  (i != []) && (splitOnceChar ':' i).isNone

/-- The error message `parse_virtiofs_mounts` produces for a rejected item. -/
def vErrMsg (i : Tok) : String :=
  "Invalid virtiofs mount spec: " ++ String.mk i

/-- The error message `parse_symlinks` produces for a rejected item. -/
def sErrMsg (i : Tok) : String :=
  "Invalid symlink spec: " ++ String.mk i

/-- A command-line token whose payload contains an item its list parser
rejects. -/
def tokBad (tok : Tok) : Bool :=
  match stripPre vfsPre tok with
  | some v => (splitOnChar ',' v).any badV
  | none =>
    match stripPre symPre tok with
    | some v => (splitOnChar ',' v).any badS
    | none => false

/-- `b` is one of the comma-separated items of the payload of `tok`, where
`tok` is an init.virtiofs= or init.symlinks= token. -/
def tokHasItem (tok : Tok) (b : Tok) : Prop :=
  (∃ v, stripPre vfsPre tok = some v ∧ b ∈ splitOnChar ',' v) ∨
  (∃ v, stripPre symPre tok = some v ∧ b ∈ splitOnChar ',' v)

/-- A `rustix::mount::mount(source, target, fstype, flags, data)` call; the
only flag the program ever sets is `MountFlags::RDONLY`, modelled as `rdonly`. -/
structure MountCall where
  source : String
  target : String
  fstype : String
  rdonly : Bool
  data : String
deriving Repr, DecidableEq

/-- A side-effecting operation performed against the kernel, recorded in
execution traces: the virtiofs capability check (reading /proc/filesystems),
a `mkdir` syscall, or a `mount` syscall. -/
inductive Op where
  | checkSupport
  | mkdir (path : String)
  | mount (c : MountCall)
deriving Repr, DecidableEq

/-- The state the program executes against: the content of /proc/filesystems
(`none` when unreadable), the set of existing directories, the set of
completed mounts, and a fault-injection oracle listing the `mkdir` paths and
`mount` calls that fail with an error other than EEXIST. -/
structure World where
  procFilesystems : Option String
  dirs : List String
  mounts : List MountCall
  mkdirFailPaths : List String
  mountFailCalls : List MountCall
deriving Repr, DecidableEq

/-- Result of running a stateful fragment: outcome, final world, and the trace
of operations attempted. -/
abbrev Run := Except String Unit × World × List Op

/-- One `rustix::fs::mkdir` call with the EEXIST-tolerant `or_else` wrapper
used at every call site of the repository: an injected fault yields the
caller-supplied contextualized error, an existing directory is success, and
otherwise the directory is created. -/
def runMkdir (err : String) (w : World) (d : String) : Run :=
  if d ∈ w.mkdirFailPaths then (.error err, w, [Op.mkdir d])
  else if d ∈ w.dirs then (.ok (), w, [Op.mkdir d])
  else (.ok (), { w with dirs := d :: w.dirs }, [Op.mkdir d])

/-- One `rustix::mount::mount` call: an injected fault yields the
caller-supplied contextualized error, otherwise the call is recorded. -/
def runMount (err : String) (w : World) (c : MountCall) : Run :=
  if c ∈ w.mountFailCalls then (.error err, w, [Op.mount c])
  else (.ok (), { w with mounts := w.mounts ++ [c] }, [Op.mount c])

/-- Substring test on character lists, embedding Rust `str::contains`. -/
def startsWithL : List Char → List Char → Bool
  | [], _ => true
  | _ :: _, [] => false
  | p :: ps, y :: ys => p = y && startsWithL ps ys

/-- `hasSub pat l` holds when `pat` occurs contiguously inside `l`. -/
def hasSub (pat : List Char) : List Char → Bool
  | [] => startsWithL pat []
  | x :: xs => startsWithL pat (x :: xs) || hasSub pat xs

/-- The diagnostic produced by `check_virtiofs_support` when virtiofs is
missing from /proc/filesystems. -/
def virtiofsUnsupportedErr : String :=
  "virtiofs filesystem not supported by kernel. Make sure CONFIG_VIRTIO_FS is enabled (either built-in or as a module) and that the module is loaded before mounting virtiofs shares."

/-- `check_virtiofs_support` in virtiofs.rs: read /proc/filesystems and test
whether it mentions virtiofs. -/
def check_virtiofs_support (w : World) : Run :=
  match w.procFilesystems with
  | none => (.error "Failed to read /proc/filesystems", w, [Op.checkSupport])
  | some fsys =>
    if hasSub "virtiofs".toList fsys.toList then (.ok (), w, [Op.checkSupport])
    else (.error virtiofsUnsupportedErr, w, [Op.checkSupport])

/-- Components of a path string, as split on the slash character
(Rust `std::path::Path` componentization for the normalized paths this
program builds). -/
def pathComps (p : String) : List (List Char) :=
  splitOnChar '/' p.toList

/-- Inverse of `pathComps`: join components with slashes. -/
def joinComps : List (List Char) → List Char
  | [] => []
  | [g] => g
  | g :: gs => g ++ '/' :: joinComps gs

/-- Render a component list back to a path string. -/
def renderComps (cs : List (List Char)) : String :=
  String.mk (joinComps cs)

/-- Structural helper for `ancChain`: the recursion of the parent walk, with
an explicit fuel bound that decreases at each step (each parent has one
component fewer, so a fuel of the component count always suffices). -/
def ancChainFuel : Nat → List (List Char) → List (List (List Char))
  | 0, _ => []
  | _ + 1, [] => []
  | n + 1, c :: cs =>
    let q := (c :: cs).dropLast
    if renderComps q = "" ∨ renderComps q = "/" then []
    else q :: ancChainFuel n q

/-- The `while let Some(parent) = current.parent()` loop of `mkdir_p` in
virtiofs.rs, at the component level: walk from the immediate parent towards
the root, stopping when the parent renders to the empty string or "/". -/
def ancChain (cs : List (List Char)) : List (List (List Char)) :=
  ancChainFuel cs.length cs

/-- All proper ancestors of a path visited by the `mkdir_p` loop, immediate
parent first. -/
def ancestorsOf (p : String) : List String :=
  (ancChain (pathComps p)).map renderComps

/-- Create each directory of a list in order with `rustix::fs::mkdir`,
tolerating EEXIST, aborting on the first injected fault; `pre` is the context
message prefix of the call site. -/
def mkdirSeq (pre : String) (w : World) : List String → Run
  | [] => (.ok (), w, [])
  | d :: ds =>
    match runMkdir (pre ++ d) w d with
    | (.error e, w1, t1) => (.error e, w1, t1)
    | (.ok _, w1, t1) =>
      match mkdirSeq pre w1 ds with
      | (r, w2, t2) => (r, w2, t1 ++ t2)

/-- `mkdir_p` in virtiofs.rs: collect the ancestors missing from the current
state, create them from closest-to-root downward, then create the target
itself, each step tolerating EEXIST. -/
def mkdir_p (w : World) (p : String) : Run :=
  let toCreate := ((ancestorsOf p).filter (fun d => !decide (d ∈ w.dirs))).reverse
  match mkdirSeq "Failed to create directory " w toCreate with
  | (.error e, w1, t1) => (.error e, w1, t1)
  | (.ok _, w1, t1) =>
    match runMkdir ("Failed to create directory " ++ p) w1 p with
    | (r, w2, t2) => (r, w2, t1 ++ t2)

/-- The overlay base directory `/run/overlayfs/{tag}` derived from a spec. -/
def overlayBase (tag : String) : String :=
  "/run/overlayfs/" ++ tag

/-- The four overlay layout directories of a spec, in the creation order of
the source: base, upper, work, lower. -/
def overlayDirs (m : VirtiofsMount) : List String :=
  [overlayBase m.tag, overlayBase m.tag ++ "/upper",
   overlayBase m.tag ++ "/work", overlayBase m.tag ++ "/lower"]

/-- The read-only virtiofs mount of a spec's share at its overlay `lower`
directory. -/
def lowerCall (m : VirtiofsMount) : MountCall :=
  { source := m.tag, target := overlayBase m.tag ++ "/lower", fstype := "virtiofs",
    rdonly := true, data := "" }

/-- The overlay mount of a spec at its target path, with lowerdir, upperdir
and workdir options pointing into the overlay layout. -/
def overlayCall (m : VirtiofsMount) : MountCall :=
  { source := "overlay", target := m.path, fstype := "overlay", rdonly := false,
    data := "lowerdir=" ++ overlayBase m.tag ++ "/lower" ++
            ",upperdir=" ++ overlayBase m.tag ++ "/upper" ++
            ",workdir=" ++ overlayBase m.tag ++ "/work" }

/-- The direct (no overlay) virtiofs mount of a spec at its target path. -/
def directCall (m : VirtiofsMount) : MountCall :=
  { source := m.tag, target := m.path, fstype := "virtiofs", rdonly := false, data := "" }

/-- Loop body of `mount_virtiofs_shares` in virtiofs.rs for a single spec:
ensure the target path, then either create the overlay layout, mount the
share read-only at `lower` and mount the overlay at the target, or mount the
share directly at the target. -/
def mountOneSpec (w : World) (m : VirtiofsMount) : Run :=
  match mkdir_p w m.path with
  | (.error e, w1, t1) => (.error e, w1, t1)
  | (.ok _, w1, t1) =>
    if m.with_overlay then
      let base := overlayBase m.tag
      match mkdirSeq "Failed to create overlay directory " w1 (overlayDirs m) with
      | (.error e, w2, t2) => (.error e, w2, t1 ++ t2)
      | (.ok _, w2, t2) =>
        match runMount ("Failed to mount virtiofs " ++ m.tag ++ " at " ++ (base ++ "/lower"))
            w2 (lowerCall m) with
        | (.error e, w3, t3) => (.error e, w3, t1 ++ t2 ++ t3)
        | (.ok _, w3, t3) =>
          match runMount ("Failed to mount overlayfs at " ++ m.path) w3 (overlayCall m) with
          | (r, w4, t4) => (r, w4, t1 ++ t2 ++ t3 ++ t4)
    else
      match runMount ("Failed to mount virtiofs " ++ m.tag ++ " at " ++ m.path) w1
          (directCall m) with
      | (r, w2, t2) => (r, w2, t1 ++ t2)

/-- The `for vfs_mount in mounts` loop of `mount_virtiofs_shares`: process the
specs in order, aborting on the first failure. -/
def mountSpecs (w : World) : List VirtiofsMount → Run
  | [] => (.ok (), w, [])
  | m :: ms =>
    match mountOneSpec w m with
    | (.error e, w1, t1) => (.error e, w1, t1)
    | (.ok _, w1, t1) =>
      match mountSpecs w1 ms with
      | (r, w2, t2) => (r, w2, t1 ++ t2)

/-- `mount_virtiofs_shares` in virtiofs.rs: empty input is an immediate
success; otherwise check virtiofs support once, then process every spec. -/
def mount_virtiofs_shares (w : World) (ms : List VirtiofsMount) : Run :=
  if ms.isEmpty then (.ok (), w, [])
  else
    match check_virtiofs_support w with
    | (.error e, w1, t1) => (.error e, w1, t1)
    | (.ok _, w1, t1) =>
      match mountSpecs w1 ms with
      | (r, w2, t2) => (r, w2, t1 ++ t2)

/-- The static `KERNEL_MOUNTS` table of main.rs. -/
def KERNEL_MOUNTS : List MountCall :=
  [ { source := "proc", target := "/proc", fstype := "proc", rdonly := false, data := "" },
    { source := "sysfs", target := "/sys", fstype := "sysfs", rdonly := false, data := "" },
    { source := "devtmpfs", target := "/dev", fstype := "devtmpfs", rdonly := false, data := "" },
    { source := "tmpfs", target := "/run", fstype := "tmpfs", rdonly := false, data := "mode=0755" } ]

/-- The loop of `mount_kernel_filesystems` in main.rs: for each entry, create
the mount point (tolerating EEXIST) and mount the filesystem. -/
def mountKernelList (w : World) : List MountCall → Run
  | [] => (.ok (), w, [])
  | c :: cs =>
    match runMkdir ("Failed to create " ++ c.target) w c.target with
    | (.error e, w1, t1) => (.error e, w1, t1)
    | (.ok _, w1, t1) =>
      match runMount ("Failed to mount " ++ c.target) w1 c with
      | (.error e, w2, t2) => (.error e, w2, t1 ++ t2)
      | (.ok _, w2, t2) =>
        match mountKernelList w2 cs with
        | (r, w3, t3) => (r, w3, t1 ++ t2 ++ t3)

/-- `mount_kernel_filesystems` in main.rs. -/
def mount_kernel_filesystems (w : World) : Run :=
  mountKernelList w KERNEL_MOUNTS

/-- `main` in main.rs, with the externally-read command line passed as a
parameter: mount the kernel filesystems, parse the command line, print the
parsed configuration, and return; the virtiofs mount, symlink, environment
variable and exec stages are TODO stubs that perform no operation. -/
def mainRun (w : World) (cmdline : String) : Run :=
  match mount_kernel_filesystems w with
  | (.error e, w1, t1) => (.error e, w1, t1)
  | (.ok _, w1, t1) =>
    match parse_cmdline cmdline with
    | .error e => (.error e, w1, t1)
    | .ok _cfg => (.ok (), w1, t1)

/-- An initially empty world whose kernel supports virtiofs, with no injected
faults; concrete runs of the orchestrator are evaluated on it. -/
def testWorld : World :=
  { procFilesystems := some "nodev\tvirtiofs\n", dirs := [], mounts := [],
    mkdirFailPaths := [], mountFailCalls := [] }

/-- The final world of a run extends the initial one: directories persist,
completed mounts are extended but never removed or reordered, and the
fault-injection oracle and /proc/filesystems content are untouched.  This is
the formal shape of the no-rollback property. -/
def WExt (w w2 : World) : Prop :=
  (∀ d ∈ w.dirs, d ∈ w2.dirs) ∧
  (∃ ext, w2.mounts = w.mounts ++ ext) ∧
  w2.mkdirFailPaths = w.mkdirFailPaths ∧
  w2.mountFailCalls = w.mountFailCalls ∧
  w2.procFilesystems = w.procFilesystems

/-- `op` is an operation the fault oracle of `w` makes fail: a `mkdir` of a
path in `mkdirFailPaths` or a `mount` call in `mountFailCalls`. -/
def failOp (w : World) (op : Op) : Prop :=
  (∃ d, op = Op.mkdir d ∧ d ∈ w.mkdirFailPaths) ∨
  (∃ c, op = Op.mount c ∧ c ∈ w.mountFailCalls)

theorem WExt.refl (w : World) : WExt w w :=
  ⟨fun _ h => h, ⟨[], by simp⟩, rfl, rfl, rfl⟩

theorem WExt.trans {w1 w2 w3 : World} (h1 : WExt w1 w2) (h2 : WExt w2 w3) : WExt w1 w3 := by
  obtain ⟨d1, ⟨e1, m1⟩, f1, g1, p1⟩ := h1
  obtain ⟨d2, ⟨e2, m2⟩, f2, g2, p2⟩ := h2
  exact ⟨fun x hx => d2 x (d1 x hx), ⟨e1 ++ e2, by rw [m2, m1, List.append_assoc]⟩,
    f2.trans f1, g2.trans g1, p2.trans p1⟩

theorem runMkdir_wext (e : String) (w : World) (d : String) :
    WExt w (runMkdir e w d).2.1 := by
  unfold runMkdir
  split
  · exact WExt.refl w
  · split
    · exact WExt.refl w
    · exact ⟨fun x hx => List.mem_cons_of_mem d hx, ⟨[], by simp⟩, rfl, rfl, rfl⟩

theorem runMkdir_trace (e : String) (w : World) (d : String) :
    (runMkdir e w d).2.2 = [Op.mkdir d] := by
  unfold runMkdir
  split
  · rfl
  · split <;> rfl

theorem runMkdir_exist (e : String) (w : World) (d : String)
    (h1 : d ∉ w.mkdirFailPaths) (h2 : d ∈ w.dirs) :
    runMkdir e w d = (.ok (), w, [Op.mkdir d]) := by
  unfold runMkdir
  rw [if_neg h1, if_pos h2]

theorem runMkdir_ok (e : String) (w : World) (d : String)
    (h : (runMkdir e w d).1 = .ok ()) :
    d ∈ (runMkdir e w d).2.1.dirs ∧ d ∉ w.mkdirFailPaths := by
  by_cases hf : d ∈ w.mkdirFailPaths
  · rw [show runMkdir e w d = (.error e, w, [Op.mkdir d]) from by
      unfold runMkdir; rw [if_pos hf]] at h
    cases h
  · by_cases hx : d ∈ w.dirs
    · rw [runMkdir_exist e w d hf hx]
      exact ⟨hx, hf⟩
    · rw [show runMkdir e w d = (.ok (), { w with dirs := d :: w.dirs }, [Op.mkdir d]) from by
        unfold runMkdir; rw [if_neg hf, if_neg hx]]
      exact ⟨List.mem_cons_self d w.dirs, hf⟩

theorem runMount_wext (e : String) (w : World) (c : MountCall) :
    WExt w (runMount e w c).2.1 := by
  unfold runMount
  split
  · exact WExt.refl w
  · exact ⟨fun x hx => hx, ⟨[c], rfl⟩, rfl, rfl, rfl⟩

theorem runMount_trace (e : String) (w : World) (c : MountCall) :
    (runMount e w c).2.2 = [Op.mount c] := by
  unfold runMount
  split <;> rfl

theorem runMount_ok (e : String) (w : World) (c : MountCall)
    (h : (runMount e w c).1 = .ok ()) :
    c ∉ w.mountFailCalls ∧ (runMount e w c).2.1.mounts = w.mounts ++ [c] := by
  unfold runMount at h ⊢
  split at h
  · cases h
  · rename_i hfail
    exact ⟨hfail, by rw [if_neg hfail]⟩

theorem runMount_err (e : String) (w : World) (c : MountCall)
    (h : c ∈ w.mountFailCalls) :
    runMount e w c = (.error e, w, [Op.mount c]) := by
  unfold runMount
  rw [if_pos h]

theorem mkdirSeq_wext (pre : String) (ds : List String) :
    ∀ w : World, WExt w (mkdirSeq pre w ds).2.1 := by
  induction ds with
  | nil => intro w; exact WExt.refl w
  | cons d ds ih =>
    intro w
    rcases hr : runMkdir (pre ++ d) w d with ⟨r, w1, t1⟩
    have hw1 : WExt w w1 := by
      have := runMkdir_wext (pre ++ d) w d; rw [hr] at this; exact this
    cases r with
    | error e => simp only [mkdirSeq, hr]; exact hw1
    | ok u =>
      rcases hs : mkdirSeq pre w1 ds with ⟨r2, w2, t2⟩
      have hw2 : WExt w1 w2 := by have := ih w1; rw [hs] at this; exact this
      simp only [mkdirSeq, hr, hs]
      exact hw1.trans hw2

theorem mkdirSeq_ok (pre : String) (ds : List String) :
    ∀ w : World, (mkdirSeq pre w ds).1 = .ok () →
      (mkdirSeq pre w ds).2.2 = ds.map Op.mkdir ∧
      ∀ d ∈ ds, d ∈ (mkdirSeq pre w ds).2.1.dirs := by
  induction ds with
  | nil => intro w _; exact ⟨rfl, by simp⟩
  | cons d ds ih =>
    intro w h
    rcases hr : runMkdir (pre ++ d) w d with ⟨r, w1, t1⟩
    cases r with
    | error e => simp only [mkdirSeq, hr] at h; cases h
    | ok u =>
      rcases hs : mkdirSeq pre w1 ds with ⟨r2, w2, t2⟩
      simp only [mkdirSeq, hr, hs] at h ⊢
      cases r2 with
      | error e2 => simp at h
      | ok u2 =>
        have htr : t2 = ds.map Op.mkdir := by
          simpa [hs] using (ih w1 (by rw [hs])).1
        have hmem : ∀ x ∈ ds, x ∈ w2.dirs := by
          simpa [hs] using (ih w1 (by rw [hs])).2
        have htr1 : t1 = [Op.mkdir d] := by
          have := runMkdir_trace (pre ++ d) w d; rw [hr] at this; exact this
        have hd1 : d ∈ w1.dirs := by
          have := runMkdir_ok (pre ++ d) w d (by rw [hr])
          rw [hr] at this; exact this.1
        have hw2 : WExt w1 w2 := by
          have := mkdirSeq_wext pre ds w1; rw [hs] at this; exact this
        refine ⟨by simp [htr1, htr], ?_⟩
        intro x hx
        rcases List.mem_cons.mp hx with rfl | hx
        · exact hw2.1 x hd1
        · exact hmem x hx

theorem mkdir_p_wext (w : World) (p : String) : WExt w (mkdir_p w p).2.1 := by
  rcases hs : mkdirSeq "Failed to create directory " w
      (((ancestorsOf p).filter (fun d => !decide (d ∈ w.dirs))).reverse) with ⟨r1, w1, t1⟩
  have hw1 : WExt w w1 := by
    have := mkdirSeq_wext "Failed to create directory "
      (((ancestorsOf p).filter (fun d => !decide (d ∈ w.dirs))).reverse) w
    rw [hs] at this; exact this
  cases r1 with
  | error e => simp only [mkdir_p, hs]; exact hw1
  | ok u =>
    rcases hm : runMkdir ("Failed to create directory " ++ p) w1 p with ⟨r2, w2, t2⟩
    have hw2 : WExt w1 w2 := by
      have := runMkdir_wext ("Failed to create directory " ++ p) w1 p
      rw [hm] at this; exact this
    simp only [mkdir_p, hs, hm]
    exact hw1.trans hw2

theorem mkdir_p_ok (w : World) (p : String) (h : (mkdir_p w p).1 = .ok ()) :
    p ∈ (mkdir_p w p).2.1.dirs ∧ p ∉ w.mkdirFailPaths ∧
    (∀ a ∈ ancestorsOf p, a ∈ (mkdir_p w p).2.1.dirs) ∧
    (mkdir_p w p).2.2 =
      (((ancestorsOf p).filter (fun d => !decide (d ∈ w.dirs))).reverse).map Op.mkdir
        ++ [Op.mkdir p] := by
  rcases hs : mkdirSeq "Failed to create directory " w
      (((ancestorsOf p).filter (fun d => !decide (d ∈ w.dirs))).reverse) with ⟨r1, w1, t1⟩
  have hw1 : WExt w w1 := by
    have := mkdirSeq_wext "Failed to create directory "
      (((ancestorsOf p).filter (fun d => !decide (d ∈ w.dirs))).reverse) w
    rw [hs] at this; exact this
  cases r1 with
  | error e => simp only [mkdir_p, hs] at h; cases h
  | ok u =>
    rcases hm : runMkdir ("Failed to create directory " ++ p) w1 p with ⟨r2, w2, t2⟩
    have hw2 : WExt w1 w2 := by
      have := runMkdir_wext ("Failed to create directory " ++ p) w1 p
      rw [hm] at this; exact this
    simp only [mkdir_p, hs, hm] at h ⊢
    cases r2 with
    | error e2 => simp at h
    | ok u2 =>
      have hrun := runMkdir_ok ("Failed to create directory " ++ p) w1 p (by rw [hm])
      rw [hm] at hrun
      have hseq := mkdirSeq_ok "Failed to create directory "
        (((ancestorsOf p).filter (fun d => !decide (d ∈ w.dirs))).reverse) w (by rw [hs])
      rw [hs] at hseq
      have ht2 : t2 = [Op.mkdir p] := by
        have := runMkdir_trace ("Failed to create directory " ++ p) w1 p
        rw [hm] at this; exact this
      have ht1 : t1 =
          List.map Op.mkdir ((ancestorsOf p).filter (fun d => !decide (d ∈ w.dirs))).reverse :=
        hseq.1
      refine ⟨hrun.1, by rw [← hw1.2.2.1]; exact hrun.2, ?_,
        by simp [ht1, ht2, List.map_reverse]⟩
      intro a ha
      by_cases haw : a ∈ w.dirs
      · exact hw2.1 a (hw1.1 a haw)
      · have hmem : a ∈ ((ancestorsOf p).filter (fun d => !decide (d ∈ w.dirs))).reverse := by
          rw [List.mem_reverse, List.mem_filter]
          exact ⟨ha, by simp [haw]⟩
        exact hw2.1 a (hseq.2 a hmem)

theorem mkdir_p_idem (w : World) (p : String) (w2 : World) (t : List Op)
    (h : mkdir_p w p = (.ok (), w2, t)) :
    mkdir_p w2 p = (.ok (), w2, [Op.mkdir p]) := by
  have h1 := mkdir_p_ok w p (by rw [h])
  rw [h] at h1
  obtain ⟨hp2, hpf, hanc, -⟩ := h1
  have hfp2 : w2.mkdirFailPaths = w.mkdirFailPaths := by
    have := mkdir_p_wext w p; rw [h] at this; exact this.2.2.1
  have hfilter : (ancestorsOf p).filter (fun d => !decide (d ∈ w2.dirs)) = [] := by
    rw [List.filter_eq_nil_iff]
    intro a ha
    simp [hanc a ha]
  have hpf2 : p ∉ w2.mkdirFailPaths := by rw [hfp2]; exact hpf
  simp only [mkdir_p, hfilter, List.reverse_nil, mkdirSeq,
    runMkdir_exist ("Failed to create directory " ++ p) w2 p hpf2 hp2, List.nil_append]

theorem splitBy_sep_free (p : Char → Bool) :
    ∀ l g, g ∈ splitBy p l → ∀ c ∈ g, p c = false := by
  intro l
  induction l with
  | nil =>
    intro g hg c hc
    simp [splitBy] at hg
    subst hg
    cases hc
  | cons x xs ih =>
    intro g hg c hc
    by_cases hx : p x = true
    · rw [show splitBy p (x :: xs) = [] :: splitBy p xs from by simp [splitBy, hx]] at hg
      rcases List.mem_cons.mp hg with rfl | hg
      · cases hc
      · exact ih g hg c hc
    · have hx2 : p x = false := by simpa using hx
      rcases hsp : splitBy p xs with _ | ⟨g0, gs⟩
      · rw [show splitBy p (x :: xs) = [[x]] from by simp [splitBy, hx2, hsp]] at hg
        rcases List.mem_cons.mp hg with rfl | hg
        · rcases List.mem_cons.mp hc with rfl | hc
          · exact hx2
          · cases hc
        · cases hg
      · rw [show splitBy p (x :: xs) = (x :: g0) :: gs from by simp [splitBy, hx2, hsp]] at hg
        rcases List.mem_cons.mp hg with rfl | hg
        · rcases List.mem_cons.mp hc with rfl | hc
          · exact hx2
          · exact ih g0 (by rw [hsp]; exact List.mem_cons_self g0 gs) c hc
        · exact ih g (by rw [hsp]; exact List.mem_cons_of_mem g0 hg) c hc

theorem splitBy_no_sep (p : Char → Bool) :
    ∀ l, (∀ c ∈ l, p c = false) → splitBy p l = [l] := by
  intro l
  induction l with
  | nil => intro _; rfl
  | cons x xs ih =>
    intro h
    have hx : p x = false := h x (List.mem_cons_self x xs)
    have hxs := ih (fun c hc => h c (List.mem_cons_of_mem x hc))
    simp [splitBy, hx, hxs]

theorem splitBy_append_sep (p : Char → Bool) (x : Char) (hx : p x = true) :
    ∀ g r, (∀ c ∈ g, p c = false) → splitBy p (g ++ x :: r) = g :: splitBy p r := by
  intro g
  induction g with
  | nil => intro r _; simp [splitBy, hx]
  | cons y ys ih =>
    intro r h
    have hy : p y = false := h y (List.mem_cons_self y ys)
    have hys := ih r (fun c hc => h c (List.mem_cons_of_mem y hc))
    simp [splitBy, hy, hys]

theorem joinComps_roundtrip :
    ∀ cs : List (List Char), cs ≠ [] →
      (∀ g ∈ cs, ∀ c ∈ g, (decide (c = '/')) = false) →
      splitOnChar '/' (joinComps cs) = cs := by
  intro cs
  induction cs with
  | nil => intro h; cases h rfl
  | cons g gs ih =>
    intro _ hsep
    cases gs with
    | nil =>
      exact splitBy_no_sep _ g (fun c hc => hsep g (List.mem_cons_self g []) c hc)
    | cons g2 rest =>
      have hj : joinComps (g :: g2 :: rest) = g ++ '/' :: joinComps (g2 :: rest) := rfl
      rw [hj]
      unfold splitOnChar
      rw [splitBy_append_sep _ '/' (by simp) g (joinComps (g2 :: rest))
        (fun c hc => hsep g (List.mem_cons_self g (g2 :: rest)) c hc)]
      have := ih (by simp) (fun q hq c hc => hsep q (List.mem_cons_of_mem g hq) c hc)
      unfold splitOnChar at this
      rw [this]

theorem ancChain_nil : ancChain [] = [] := rfl

theorem ancChain_cons (c : List Char) (cs : List (List Char)) :
    ancChain (c :: cs) =
      if renderComps ((c :: cs).dropLast) = "" ∨ renderComps ((c :: cs).dropLast) = "/" then []
      else (c :: cs).dropLast :: ancChain ((c :: cs).dropLast) := by
  have hlen : ((c :: cs).dropLast).length = cs.length := by
    simp [List.length_dropLast]
  unfold ancChain
  rw [List.length_cons]
  simp only [ancChainFuel]
  rw [hlen.symm]

theorem ancChain_subset_fuel :
    ∀ (n : Nat) (cs : List (List Char)), cs.length ≤ n →
      ∀ q ∈ ancChain cs, ∀ g ∈ q, g ∈ cs := by
  intro n
  induction n with
  | zero =>
    intro cs hlen q hq
    cases cs with
    | nil => simp [ancChain_nil] at hq
    | cons a b => simp at hlen
  | succ n ih =>
    intro cs hlen q hq g hg
    cases cs with
    | nil => simp [ancChain_nil] at hq
    | cons c cs2 =>
      by_cases hbr : renderComps ((c :: cs2).dropLast) = "" ∨
          renderComps ((c :: cs2).dropLast) = "/"
      · rw [show ancChain (c :: cs2) = [] from by rw [ancChain_cons]; simp [hbr]] at hq
        cases hq
      · rw [show ancChain (c :: cs2) =
            (c :: cs2).dropLast :: ancChain ((c :: cs2).dropLast) from by
          rw [ancChain_cons]; simp [hbr]] at hq
        have hsub : ∀ a ∈ (c :: cs2).dropLast, a ∈ c :: cs2 := fun a ha =>
          (List.dropLast_prefix (c :: cs2)).subset ha
        have hlen2 : (c :: cs2).dropLast.length ≤ n := by
          simp only [List.length_dropLast, List.length_cons] at hlen ⊢
          omega
        rcases List.mem_cons.mp hq with rfl | hq
        · exact hsub g hg
        · exact hsub g (ih (c :: cs2).dropLast hlen2 q hq g hg)

theorem ancChain_subset (cs : List (List Char)) :
    ∀ q ∈ ancChain cs, ∀ g ∈ q, g ∈ cs :=
  ancChain_subset_fuel cs.length cs (Nat.le_refl cs.length)

theorem ancChain_render_ne_fuel :
    ∀ (n : Nat) (cs : List (List Char)), cs.length ≤ n →
      ∀ q ∈ ancChain cs, renderComps q ≠ "" ∧ renderComps q ≠ "/" := by
  intro n
  induction n with
  | zero =>
    intro cs hlen q hq
    cases cs with
    | nil => simp [ancChain_nil] at hq
    | cons a b => simp at hlen
  | succ n ih =>
    intro cs hlen q hq
    cases cs with
    | nil => simp [ancChain_nil] at hq
    | cons c cs2 =>
      by_cases hbr : renderComps ((c :: cs2).dropLast) = "" ∨
          renderComps ((c :: cs2).dropLast) = "/"
      · rw [show ancChain (c :: cs2) = [] from by rw [ancChain_cons]; simp [hbr]] at hq
        cases hq
      · rw [show ancChain (c :: cs2) =
            (c :: cs2).dropLast :: ancChain ((c :: cs2).dropLast) from by
          rw [ancChain_cons]; simp [hbr]] at hq
        have hlen2 : (c :: cs2).dropLast.length ≤ n := by
          simp only [List.length_dropLast, List.length_cons] at hlen ⊢
          omega
        rcases List.mem_cons.mp hq with rfl | hq
        · push_neg at hbr; exact hbr
        · exact ih (c :: cs2).dropLast hlen2 q hq

theorem ancChain_render_ne (cs : List (List Char)) :
    ∀ q ∈ ancChain cs, renderComps q ≠ "" ∧ renderComps q ≠ "/" :=
  ancChain_render_ne_fuel cs.length cs (Nat.le_refl cs.length)

theorem ancChain_pairwise_fuel :
    ∀ (n : Nat) (cs : List (List Char)), cs.length ≤ n →
      List.Pairwise (fun a b => b ∈ ancChain a) (ancChain cs) := by
  intro n
  induction n with
  | zero =>
    intro cs hlen
    cases cs with
    | nil => simp [ancChain_nil]
    | cons a b => simp at hlen
  | succ n ih =>
    intro cs hlen
    cases cs with
    | nil => simp [ancChain_nil]
    | cons c cs2 =>
      by_cases hbr : renderComps ((c :: cs2).dropLast) = "" ∨
          renderComps ((c :: cs2).dropLast) = "/"
      · rw [show ancChain (c :: cs2) = [] from by rw [ancChain_cons]; simp [hbr]]
        exact List.Pairwise.nil
      · rw [show ancChain (c :: cs2) =
            (c :: cs2).dropLast :: ancChain ((c :: cs2).dropLast) from by
          rw [ancChain_cons]; simp [hbr]]
        have hlen2 : (c :: cs2).dropLast.length ≤ n := by
          simp only [List.length_dropLast, List.length_cons] at hlen ⊢
          omega
        exact List.Pairwise.cons (fun b hb => hb) (ih (c :: cs2).dropLast hlen2)

theorem ancChain_pairwise (cs : List (List Char)) :
    List.Pairwise (fun a b => b ∈ ancChain a) (ancChain cs) :=
  ancChain_pairwise_fuel cs.length cs (Nat.le_refl cs.length)

theorem pathComps_sep_free (p : String) :
    ∀ g ∈ pathComps p, ∀ c ∈ g, (decide (c = '/')) = false := by
  intro g hg c hc
  have := splitBy_sep_free (fun x => decide (x = '/')) p.toList g hg c hc
  simpa using this

theorem ancestorsOf_pairwise (p : String) :
    List.Pairwise (fun a b => b ∈ ancestorsOf a) (ancestorsOf p) := by
  unfold ancestorsOf
  rw [List.pairwise_map]
  refine (ancChain_pairwise (pathComps p)).imp_of_mem ?_
  intro a b ha hb hab
  have hasub := ancChain_subset (pathComps p) a ha
  have hane : a ≠ [] := by
    intro he
    exact (ancChain_render_ne (pathComps p) a ha).1 (by rw [he]; rfl)
  have hsep : ∀ g ∈ a, ∀ c ∈ g, (decide (c = '/')) = false := fun g hg c hc =>
    pathComps_sep_free p g (hasub g hg) c hc
  have hround : pathComps (renderComps a) = a := by
    unfold pathComps renderComps
    rw [show (String.mk (joinComps a)).toList = joinComps a from rfl]
    exact joinComps_roundtrip a hane hsep
  rw [hround]
  exact List.mem_map_of_mem renderComps hab

theorem splitOnceChar_append (c : Char) (a b : List Char) (h : c ∉ a) :
    splitOnceChar c (a ++ c :: b) = some (a, b) := by
  induction a with
  | nil => simp [splitOnceChar]
  | cons x xs ih =>
    rw [List.mem_cons, not_or] at h
    have hx : ¬ x = c := fun e => h.1 e.symm
    simp [splitOnceChar, hx, ih h.2]

/-- C7: a virtiofs list item with exactly two colon-separated fields parses
with `with_overlay = false`; one with exactly three fields parses with
`with_overlay` true exactly when the third field is the literal "Y", without
error for any other third field. -/
theorem C7_overlay_flag :
    (∀ (s t p : Tok), splitOnChar ':' s = [t, p] →
       parseVirtiofsList [s] =
         .ok [{ tag := String.mk t, path := String.mk p, with_overlay := false }]) ∧
    (∀ (s t p o : Tok), splitOnChar ':' s = [t, p, o] →
       parseVirtiofsList [s] =
         .ok [{ tag := String.mk t, path := String.mk p,
                with_overlay := decide (o = "Y".toList) }]) := by
  constructor
  · intro s t p h
    have hs : s ≠ [] := by rintro rfl; simp [splitOnChar, splitBy] at h
    simp [parseVirtiofsList, hs, h, Except.map]
  · intro s t p o h
    have hs : s ≠ [] := by rintro rfl; simp [splitOnChar, splitBy] at h
    simp [parseVirtiofsList, hs, h, Except.map]

/-- Witness for C7: "tag:/p" gives no overlay, "tag:/p:Y" gives overlay true,
and "tag:/p:yes" gives overlay false. -/
theorem C7_overlay_flag_witness :
    parseVirtiofsList ["tag:/p".toList] =
      .ok [{ tag := "tag", path := "/p", with_overlay := false }] ∧
    parseVirtiofsList ["tag:/p:Y".toList] =
      .ok [{ tag := "tag", path := "/p", with_overlay := true }] ∧
    parseVirtiofsList ["tag:/p:yes".toList] =
      .ok [{ tag := "tag", path := "/p", with_overlay := false }] :=
  ⟨C7_overlay_flag.1 "tag:/p".toList "tag".toList "/p".toList (by decide),
   C7_overlay_flag.2 "tag:/p:Y".toList "tag".toList "/p".toList "Y".toList (by decide),
   C7_overlay_flag.2 "tag:/p:yes".toList "tag".toList "/p".toList "yes".toList (by decide)⟩

/-- C8: a symlink list item is split on its first colon only, the source being
the text before it and the target everything after it verbatim, and empty
items are skipped without error. -/
theorem C8_symlink_first_colon :
    (∀ (a b : Tok), ':' ∉ a →
       parseSymlinkList [a ++ ':' :: b] =
         .ok [{ source := String.mk a, target := String.mk b }]) ∧
    (∀ l, parseSymlinkList ([] :: l) = parseSymlinkList l) := by
  constructor
  · intro a b h
    have hne : a ++ ':' :: b ≠ [] := by cases a <;> simp
    simp [parseSymlinkList, hne, splitOnceChar_append ':' a b h, Except.map]
  · intro l
    simp [parseSymlinkList]

/-- Witness for C8: "/a:b:c:/d" splits into source "/a" and target "b:c:/d". -/
theorem C8_symlink_first_colon_witness :
    parseSymlinkList ["/a".toList ++ ':' :: "b:c:/d".toList] =
      .ok [{ source := "/a", target := "b:c:/d" }] :=
  C8_symlink_first_colon.1 "/a".toList "b:c:/d".toList (by decide)

/-- C5 counterexample: parse_cmdline accepts "init.virtiofs=:/p", producing a
mount with an empty tag, so successful parses do not guarantee non-empty tags
and paths. -/
theorem C5_cex :
    ¬ (∀ (s : String) (cfg : Config), parse_cmdline s = .ok cfg →
        ∀ m ∈ cfg.virtiofs_mounts, m.tag ≠ "" ∧ m.path ≠ "") := by
  intro h
  have hm := h "init.virtiofs=:/p"
    { virtiofs_mounts := [{ tag := "", path := "/p", with_overlay := false }],
      symlinks := [], env_vars := [], command := none } (by decide)
    { tag := "", path := "/p", with_overlay := false } (by decide)
  exact hm.1 rfl

/-- C5 amended: the parser validates only the colon field count of each
virtiofs item, never the contents of the fields, so a successful parse may
contain mounts whose tag and path are both empty: "init.virtiofs=:" parses to
a single mount with empty tag and empty path. -/
theorem C5_amended :
    parse_cmdline "init.virtiofs=:" =
      .ok { virtiofs_mounts := [{ tag := "", path := "", with_overlay := false }],
            symlinks := [], env_vars := [], command := none } := by
  decide

/-- C10: an init.env. token with an equals sign is inserted even when the
variable name is empty: "init.env.=v" yields the entry ("", "v") and
"init.env.A=" yields ("A", ""). -/
theorem C10_env_empty_key :
    parse_cmdline "init.env.=v" =
      .ok { virtiofs_mounts := [], symlinks := [], env_vars := [("", "v")], command := none } ∧
    parse_cmdline "init.env.A=" =
      .ok { virtiofs_mounts := [], symlinks := [], env_vars := [("A", "")], command := none } :=
  ⟨by decide, by decide⟩

theorem parseVirtiofsList_cons_bad (i : Tok) (rest : List Tok) (h : badV i = true) :
    parseVirtiofsList (i :: rest) = .error (vErrMsg i) := by
  simp only [badV, Bool.and_eq_true, bne_iff_ne, ne_eq] at h
  obtain ⟨⟨h1, h2⟩, h3⟩ := h
  rcases hs : splitOnChar ':' i with _ | ⟨a, _ | ⟨b, _ | ⟨c, _ | ⟨d, l⟩⟩⟩⟩
  · simp [parseVirtiofsList, h1, hs, vErrMsg]
  · simp [parseVirtiofsList, h1, hs, vErrMsg]
  · exact absurd (by rw [hs]; rfl) h2
  · exact absurd (by rw [hs]; rfl) h3
  · simp [parseVirtiofsList, h1, hs, vErrMsg]

theorem parseVirtiofsList_good_lengths (i : Tok) (hb : ¬ badV i = true) (hnil : ¬ i = []) :
    (splitOnChar ':' i).length = 2 ∨ (splitOnChar ':' i).length = 3 := by
  by_contra hc
  push_neg at hc
  exact hb (by simp [badV, hnil, hc.1, hc.2])

theorem parseVirtiofsList_error_of_any_bad (items : List Tok) (h : items.any badV = true) :
    ∃ b ∈ items, badV b = true ∧ parseVirtiofsList items = .error (vErrMsg b) := by
  induction items with
  | nil => simp at h
  | cons i rest ih =>
    by_cases hb : badV i = true
    · exact ⟨i, List.mem_cons_self i rest, hb, parseVirtiofsList_cons_bad i rest hb⟩
    · have hrest : rest.any badV = true := by
        rcases (List.any_eq_true).mp h with ⟨x, hx, hxb⟩
        rcases List.mem_cons.mp hx with rfl | hx
        · exact absurd hxb hb
        · exact (List.any_eq_true).mpr ⟨x, hx, hxb⟩
      obtain ⟨b, hbmem, hbbad, herr⟩ := ih hrest
      refine ⟨b, List.mem_cons_of_mem i hbmem, hbbad, ?_⟩
      by_cases hnil : i = []
      · subst hnil; simpa [parseVirtiofsList] using herr
      · rcases parseVirtiofsList_good_lengths i hb hnil with h2 | h3
        · obtain ⟨a, b2, hs⟩ := List.length_eq_two.mp h2
          simp [parseVirtiofsList, hnil, hs, herr, Except.map]
        · obtain ⟨a, b2, c, hs⟩ := List.length_eq_three.mp h3
          simp [parseVirtiofsList, hnil, hs, herr, Except.map]

theorem parseVirtiofsList_ok_of_all_good (items : List Tok) (h : items.any badV = false) :
    ∃ ms, parseVirtiofsList items = .ok ms := by
  induction items with
  | nil => exact ⟨[], rfl⟩
  | cons i rest ih =>
    rw [List.any_cons, Bool.or_eq_false_iff] at h
    obtain ⟨ms, hms⟩ := ih h.2
    by_cases hnil : i = []
    · subst hnil; exact ⟨ms, by simpa [parseVirtiofsList] using hms⟩
    · rcases parseVirtiofsList_good_lengths i (by simp [h.1]) hnil with h2 | h3
      · obtain ⟨a, b2, hs⟩ := List.length_eq_two.mp h2
        exact ⟨{ tag := String.mk a, path := String.mk b2, with_overlay := false } :: ms,
          by simp [parseVirtiofsList, hnil, hs, hms, Except.map]⟩
      · obtain ⟨a, b2, c, hs⟩ := List.length_eq_three.mp h3
        exact ⟨{ tag := String.mk a, path := String.mk b2,
                 with_overlay := decide (c = "Y".toList) } :: ms,
          by simp [parseVirtiofsList, hnil, hs, hms, Except.map]⟩

theorem parseSymlinkList_cons_bad (i : Tok) (rest : List Tok) (h : badS i = true) :
    parseSymlinkList (i :: rest) = .error (sErrMsg i) := by
  simp only [badS, Bool.and_eq_true, bne_iff_ne, ne_eq, Option.isNone_iff_eq_none] at h
  simp [parseSymlinkList, h.1, h.2, sErrMsg]

theorem parseSymlinkList_error_of_any_bad (items : List Tok) (h : items.any badS = true) :
    ∃ b ∈ items, badS b = true ∧ parseSymlinkList items = .error (sErrMsg b) := by
  induction items with
  | nil => simp at h
  | cons i rest ih =>
    by_cases hb : badS i = true
    · exact ⟨i, List.mem_cons_self i rest, hb, parseSymlinkList_cons_bad i rest hb⟩
    · have hrest : rest.any badS = true := by
        rcases (List.any_eq_true).mp h with ⟨x, hx, hxb⟩
        rcases List.mem_cons.mp hx with rfl | hx
        · exact absurd hxb hb
        · exact (List.any_eq_true).mpr ⟨x, hx, hxb⟩
      obtain ⟨b, hbmem, hbbad, herr⟩ := ih hrest
      refine ⟨b, List.mem_cons_of_mem i hbmem, hbbad, ?_⟩
      by_cases hnil : i = []
      · subst hnil; simpa [parseSymlinkList] using herr
      · have hq : ¬ (splitOnceChar ':' i).isNone = true := fun hn =>
          hb (by simp [badS, hnil, hn])
        rcases hq2 : splitOnceChar ':' i with _ | q
        · exact absurd (by rw [hq2]; rfl) hq
        · simp [parseSymlinkList, hnil, hq2, herr, Except.map]

theorem parseSymlinkList_ok_of_all_good (items : List Tok) (h : items.any badS = false) :
    ∃ ls, parseSymlinkList items = .ok ls := by
  induction items with
  | nil => exact ⟨[], rfl⟩
  | cons i rest ih =>
    rw [List.any_cons, Bool.or_eq_false_iff] at h
    obtain ⟨ls, hls⟩ := ih h.2
    by_cases hnil : i = []
    · subst hnil; exact ⟨ls, by simpa [parseSymlinkList] using hls⟩
    · have hq : ¬ (splitOnceChar ':' i).isNone = true := fun hn => by
        have := h.1; rw [show badS i = true from by simp [badS, hnil, hn]] at this; cases this
      rcases hq2 : splitOnceChar ':' i with _ | q
      · exact absurd (by rw [hq2]; rfl) hq
      · exact ⟨{ source := String.mk q.1, target := String.mk q.2 } :: ls,
          by simp [parseSymlinkList, hnil, hq2, hls, Except.map]⟩

theorem applyParam_eq_vfs (cfg : Config) (tok v : Tok)
    (hv : stripPre vfsPre tok = some v) :
    applyParam cfg tok =
      (parse_virtiofs_mounts v).map (fun ms => { cfg with virtiofs_mounts := ms }) := by
  unfold applyParam
  rw [hv]

theorem applyParam_eq_sym (cfg : Config) (tok v : Tok)
    (hv : stripPre vfsPre tok = none) (hsy : stripPre symPre tok = some v) :
    applyParam cfg tok =
      (parse_symlinks v).map (fun ls => { cfg with symlinks := ls }) := by
  unfold applyParam
  rw [hv, hsy]

theorem applyParam_ok_other (cfg : Config) (tok : Tok)
    (hv : stripPre vfsPre tok = none) (hsy : stripPre symPre tok = none) :
    ∃ cfg2, applyParam cfg tok = .ok cfg2 := by
  rcases he : stripPre envPre tok with _ | rest
  · rcases hc : stripPre cmdPre tok with _ | v
    · exact ⟨cfg, by simp only [applyParam, hv, hsy, he, hc]⟩
    · exact ⟨{ cfg with command := some (String.mk v) },
        by simp only [applyParam, hv, hsy, he, hc]⟩
  · rcases hq : splitOnceChar '=' rest with _ | q
    · exact ⟨cfg, by simp only [applyParam, hv, hsy, he, hq]⟩
    · exact ⟨{ cfg with env_vars := envInsert cfg.env_vars (String.mk q.1) (String.mk q.2) },
        by simp only [applyParam, hv, hsy, he, hq]⟩

theorem applyParam_error_of_bad (cfg : Config) (tok : Tok) (h : tokBad tok = true) :
    ∃ b, tokHasItem tok b ∧
      ((badV b = true ∧ applyParam cfg tok = .error (vErrMsg b)) ∨
       (badS b = true ∧ applyParam cfg tok = .error (sErrMsg b))) := by
  rcases hv : stripPre vfsPre tok with _ | v
  · rcases hsy : stripPre symPre tok with _ | v
    · simp [tokBad, hv, hsy] at h
    · simp only [tokBad, hv, hsy] at h
      obtain ⟨b, hmem, hbad, herr⟩ := parseSymlinkList_error_of_any_bad _ h
      refine ⟨b, Or.inr ⟨v, hsy, hmem⟩, Or.inr ⟨hbad, ?_⟩⟩
      rw [applyParam_eq_sym cfg tok v hv hsy]
      unfold parse_symlinks
      rw [herr]
      rfl
  · simp only [tokBad, hv] at h
    obtain ⟨b, hmem, hbad, herr⟩ := parseVirtiofsList_error_of_any_bad _ h
    refine ⟨b, Or.inl ⟨v, hv, hmem⟩, Or.inl ⟨hbad, ?_⟩⟩
    rw [applyParam_eq_vfs cfg tok v hv]
    unfold parse_virtiofs_mounts
    rw [herr]
    rfl

theorem applyParam_ok_of_good (cfg : Config) (tok : Tok) (h : tokBad tok = false) :
    ∃ cfg2, applyParam cfg tok = .ok cfg2 := by
  rcases hv : stripPre vfsPre tok with _ | v
  · rcases hsy : stripPre symPre tok with _ | v
    · exact applyParam_ok_other cfg tok hv hsy
    · simp only [tokBad, hv, hsy] at h
      obtain ⟨ls, hls⟩ := parseSymlinkList_ok_of_all_good _ h
      refine ⟨{ cfg with symlinks := ls }, ?_⟩
      rw [applyParam_eq_sym cfg tok v hv hsy]
      unfold parse_symlinks
      rw [hls]
      rfl
  · simp only [tokBad, hv] at h
    obtain ⟨ms, hms⟩ := parseVirtiofsList_ok_of_all_good _ h
    refine ⟨{ cfg with virtiofs_mounts := ms }, ?_⟩
    rw [applyParam_eq_vfs cfg tok v hv]
    unfold parse_virtiofs_mounts
    rw [hms]
    rfl

theorem foldlM_error_of_bad (toks : List Tok) :
    ∀ cfg : Config, toks.any tokBad = true →
      ∃ tok ∈ toks, ∃ b, tokHasItem tok b ∧
        ((badV b = true ∧ toks.foldlM applyParam cfg = .error (vErrMsg b)) ∨
         (badS b = true ∧ toks.foldlM applyParam cfg = .error (sErrMsg b))) := by
  induction toks with
  | nil => intro cfg h; simp at h
  | cons t ts ih =>
    intro cfg h
    by_cases ht : tokBad t = true
    · obtain ⟨b, hitem, hcase⟩ := applyParam_error_of_bad cfg t ht
      refine ⟨t, List.mem_cons_self t ts, b, hitem, ?_⟩
      rcases hcase with ⟨hb, herr⟩ | ⟨hb, herr⟩
      · exact Or.inl ⟨hb, by rw [List.foldlM_cons, herr]; rfl⟩
      · exact Or.inr ⟨hb, by rw [List.foldlM_cons, herr]; rfl⟩
    · have ht2 : tokBad t = false := by simpa using ht
      have hts : ts.any tokBad = true := by
        rcases (List.any_eq_true).mp h with ⟨x, hx, hxb⟩
        rcases List.mem_cons.mp hx with rfl | hx
        · exact absurd hxb ht
        · exact (List.any_eq_true).mpr ⟨x, hx, hxb⟩
      obtain ⟨cfg2, hcfg2⟩ := applyParam_ok_of_good cfg t ht2
      obtain ⟨tok, hmem, b, hitem, hcase⟩ := ih cfg2 hts
      have hred : (t :: ts).foldlM applyParam cfg = ts.foldlM applyParam cfg2 := by
        rw [List.foldlM_cons, hcfg2]; rfl
      refine ⟨tok, List.mem_cons_of_mem t hmem, b, hitem, ?_⟩
      rcases hcase with ⟨hb, herr⟩ | ⟨hb, herr⟩
      · exact Or.inl ⟨hb, by rw [hred, herr]⟩
      · exact Or.inr ⟨hb, by rw [hred, herr]⟩

/-- C6: a command line containing an init.virtiofs= token with a non-empty
item whose colon field count is neither 2 nor 3, or an init.symlinks= token
with a non-empty item containing no colon, fails the whole parse with an
error naming the offending sub-token, and no configuration is returned. -/
theorem C6_malformed_token_fails (s : String)
    (h : (splitWs s.toList).any tokBad = true) :
    ∃ e, parse_cmdline s = .error e ∧
      ∃ tok ∈ splitWs s.toList, ∃ b, tokHasItem tok b ∧
        ((badV b = true ∧ e = vErrMsg b) ∨ (badS b = true ∧ e = sErrMsg b)) := by
  obtain ⟨tok, hmem, b, hitem, hcase⟩ :=
    foldlM_error_of_bad (splitWs s.toList) Config.default h
  rcases hcase with ⟨hb, herr⟩ | ⟨hb, herr⟩
  · exact ⟨vErrMsg b, herr, tok, hmem, b, hitem, Or.inl ⟨hb, rfl⟩⟩
  · exact ⟨sErrMsg b, herr, tok, hmem, b, hitem, Or.inr ⟨hb, rfl⟩⟩

/-- Witness for C6: a one-field virtiofs item and a colon-free symlink item
each fail the parse. -/
theorem C6_malformed_token_fails_witness :
    ((splitWs "init.virtiofs=onlytag".toList).any tokBad = true ∧
      ∃ e, parse_cmdline "init.virtiofs=onlytag" = .error e ∧
        ∃ tok ∈ splitWs "init.virtiofs=onlytag".toList, ∃ b, tokHasItem tok b ∧
          ((badV b = true ∧ e = vErrMsg b) ∨ (badS b = true ∧ e = sErrMsg b))) ∧
    ((splitWs "init.symlinks=invalid".toList).any tokBad = true ∧
      ∃ e, parse_cmdline "init.symlinks=invalid" = .error e ∧
        ∃ tok ∈ splitWs "init.symlinks=invalid".toList, ∃ b, tokHasItem tok b ∧
          ((badV b = true ∧ e = vErrMsg b) ∨ (badS b = true ∧ e = sErrMsg b))) :=
  ⟨⟨by decide, C6_malformed_token_fails "init.virtiofs=onlytag" (by decide)⟩,
   ⟨by decide, C6_malformed_token_fails "init.symlinks=invalid" (by decide)⟩⟩

theorem mkdirSeq_trace_ops (pre : String) (ds : List String) :
    ∀ w, ∀ op ∈ (mkdirSeq pre w ds).2.2, ∃ d, op = Op.mkdir d := by
  induction ds with
  | nil => intro w op hop; simp [mkdirSeq] at hop
  | cons d ds ih =>
    intro w op hop
    rcases hr : runMkdir (pre ++ d) w d with ⟨r, w1, t1⟩
    have ht1 : t1 = [Op.mkdir d] := by
      have := runMkdir_trace (pre ++ d) w d; rw [hr] at this; exact this
    cases r with
    | error e =>
      simp only [mkdirSeq, hr] at hop
      rw [ht1, List.mem_singleton] at hop
      exact ⟨d, hop⟩
    | ok u =>
      rcases hsq : mkdirSeq pre w1 ds with ⟨r2, w2, t2⟩
      simp only [mkdirSeq, hr, hsq] at hop
      rcases List.mem_append.mp hop with h1 | h2
      · rw [ht1, List.mem_singleton] at h1; exact ⟨d, h1⟩
      · have := ih w1; rw [hsq] at this; exact this op h2

theorem mkdir_p_trace_ops (w : World) (p : String) :
    ∀ op ∈ (mkdir_p w p).2.2, ∃ d, op = Op.mkdir d := by
  intro op hop
  have hseq := mkdirSeq_trace_ops "Failed to create directory "
    (((ancestorsOf p).filter (fun d => !decide (d ∈ w.dirs))).reverse) w
  rcases hs : mkdirSeq "Failed to create directory " w
      (((ancestorsOf p).filter (fun d => !decide (d ∈ w.dirs))).reverse) with ⟨r1, w1, t1⟩
  rw [hs] at hseq
  cases r1 with
  | error e =>
    simp only [mkdir_p, hs] at hop
    exact hseq op hop
  | ok u =>
    rcases hm : runMkdir ("Failed to create directory " ++ p) w1 p with ⟨r2, w2, t2⟩
    have ht2 : t2 = [Op.mkdir p] := by
      have := runMkdir_trace ("Failed to create directory " ++ p) w1 p
      rw [hm] at this; exact this
    simp only [mkdir_p, hs, hm] at hop
    rcases List.mem_append.mp hop with h1 | h2
    · exact hseq op h1
    · rw [ht2, List.mem_singleton] at h2; exact ⟨p, h2⟩

theorem check_virtiofs_support_shape (w : World) :
    (check_virtiofs_support w).2.1 = w ∧
    (check_virtiofs_support w).2.2 = [Op.checkSupport] := by
  rcases hpf : w.procFilesystems with _ | fsys
  · simp [check_virtiofs_support, hpf]
  · simp only [check_virtiofs_support, hpf]
    split <;> exact ⟨rfl, rfl⟩

theorem mountOneSpec_wext (w : World) (m : VirtiofsMount) :
    WExt w (mountOneSpec w m).2.1 := by
  have h1 := mkdir_p_wext w m.path
  rcases hp : mkdir_p w m.path with ⟨r1, w1, t1⟩
  rw [hp] at h1
  cases r1 with
  | error e => simp only [mountOneSpec, hp]; exact h1
  | ok u =>
    by_cases hov : m.with_overlay = true
    · have h2 := mkdirSeq_wext "Failed to create overlay directory " (overlayDirs m) w1
      rcases hsq : mkdirSeq "Failed to create overlay directory " w1 (overlayDirs m)
        with ⟨r2, w2, t2⟩
      rw [hsq] at h2
      cases r2 with
      | error e2 => simp only [mountOneSpec, hp, hov, if_true, hsq]; exact h1.trans h2
      | ok u2 =>
        have h3 := runMount_wext
          ("Failed to mount virtiofs " ++ m.tag ++ " at " ++ (overlayBase m.tag ++ "/lower"))
          w2 (lowerCall m)
        rcases hl : runMount
            ("Failed to mount virtiofs " ++ m.tag ++ " at " ++ (overlayBase m.tag ++ "/lower"))
            w2 (lowerCall m) with ⟨r3, w3, t3⟩
        rw [hl] at h3
        cases r3 with
        | error e3 =>
          simp only [mountOneSpec, hp, hov, if_true, hsq, hl]
          exact (h1.trans h2).trans h3
        | ok u3 =>
          have h4 := runMount_wext ("Failed to mount overlayfs at " ++ m.path) w3 (overlayCall m)
          rcases hov2 : runMount ("Failed to mount overlayfs at " ++ m.path) w3 (overlayCall m)
            with ⟨r4, w4, t4⟩
          rw [hov2] at h4
          simp only [mountOneSpec, hp, hov, if_true, hsq, hl, hov2]
          exact ((h1.trans h2).trans h3).trans h4
    · have h2 := runMount_wext ("Failed to mount virtiofs " ++ m.tag ++ " at " ++ m.path) w1
        (directCall m)
      rcases hd : runMount ("Failed to mount virtiofs " ++ m.tag ++ " at " ++ m.path) w1
          (directCall m) with ⟨r2, w2, t2⟩
      rw [hd] at h2
      simp only [mountOneSpec, hp, hov, hd]
      exact h1.trans h2

theorem mountOneSpec_no_check (w : World) (m : VirtiofsMount) :
    Op.checkSupport ∉ (mountOneSpec w m).2.2 := by
  have hmp := mkdir_p_trace_ops w m.path
  rcases hp : mkdir_p w m.path with ⟨r1, w1, t1⟩
  rw [hp] at hmp
  have ht1 : Op.checkSupport ∉ t1 := fun hmem => by
    rcases hmp _ hmem with ⟨d, hd⟩; cases hd
  cases r1 with
  | error e => simp only [mountOneSpec, hp]; exact ht1
  | ok u =>
    by_cases hov : m.with_overlay = true
    · have hsqops := mkdirSeq_trace_ops "Failed to create overlay directory " (overlayDirs m) w1
      rcases hsq : mkdirSeq "Failed to create overlay directory " w1 (overlayDirs m)
        with ⟨r2, w2, t2⟩
      rw [hsq] at hsqops
      have ht2 : Op.checkSupport ∉ t2 := fun hmem => by
        rcases hsqops _ hmem with ⟨d, hd⟩; cases hd
      cases r2 with
      | error e2 =>
        simp only [mountOneSpec, hp, hov, if_true, hsq]
        intro hmem
        rcases List.mem_append.mp hmem with h | h
        · exact ht1 h
        · exact ht2 h
      | ok u2 =>
        have htl := runMount_trace
          ("Failed to mount virtiofs " ++ m.tag ++ " at " ++ (overlayBase m.tag ++ "/lower"))
          w2 (lowerCall m)
        rcases hl : runMount
            ("Failed to mount virtiofs " ++ m.tag ++ " at " ++ (overlayBase m.tag ++ "/lower"))
            w2 (lowerCall m) with ⟨r3, w3, t3⟩
        rw [hl] at htl
        cases r3 with
        | error e3 =>
          have htl2 : t3 = [Op.mount (lowerCall m)] := htl
          simp only [mountOneSpec, hp, hov, if_true, hsq, hl]
          intro hmem
          rcases List.mem_append.mp hmem with h | h
          · rcases List.mem_append.mp h with h2 | h2
            · exact ht1 h2
            · exact ht2 h2
          · rw [htl2, List.mem_singleton] at h; cases h
        | ok u3 =>
          have htl2 : t3 = [Op.mount (lowerCall m)] := htl
          have hto := runMount_trace ("Failed to mount overlayfs at " ++ m.path) w3 (overlayCall m)
          rcases hov2 : runMount ("Failed to mount overlayfs at " ++ m.path) w3 (overlayCall m)
            with ⟨r4, w4, t4⟩
          rw [hov2] at hto
          have hto2 : t4 = [Op.mount (overlayCall m)] := hto
          simp only [mountOneSpec, hp, hov, if_true, hsq, hl, hov2]
          intro hmem
          rcases List.mem_append.mp hmem with h | h
          · rcases List.mem_append.mp h with h2 | h2
            · rcases List.mem_append.mp h2 with h3 | h3
              · exact ht1 h3
              · exact ht2 h3
            · rw [htl2, List.mem_singleton] at h2; cases h2
          · rw [hto2, List.mem_singleton] at h; cases h
    · have htd := runMount_trace ("Failed to mount virtiofs " ++ m.tag ++ " at " ++ m.path) w1
        (directCall m)
      rcases hd : runMount ("Failed to mount virtiofs " ++ m.tag ++ " at " ++ m.path) w1
          (directCall m) with ⟨r2, w2, t2⟩
      rw [hd] at htd
      have htd2 : t2 = [Op.mount (directCall m)] := htd
      simp only [mountOneSpec, hp, hov, hd]
      intro hmem
      rcases List.mem_append.mp hmem with h | h
      · exact ht1 h
      · rw [htd2, List.mem_singleton] at h; cases h

theorem mountSpecs_wext (ms : List VirtiofsMount) :
    ∀ w, WExt w (mountSpecs w ms).2.1 := by
  induction ms with
  | nil => intro w; exact WExt.refl w
  | cons m ms ih =>
    intro w
    have h1 := mountOneSpec_wext w m
    rcases ho : mountOneSpec w m with ⟨r0, w0, t0⟩
    rw [ho] at h1
    cases r0 with
    | error e => simp only [mountSpecs, ho]; exact h1
    | ok u =>
      have h2 := ih w0
      rcases hs : mountSpecs w0 ms with ⟨r1, w1, t1⟩
      rw [hs] at h2
      simp only [mountSpecs, ho, hs]
      exact h1.trans h2

theorem mountSpecs_no_check (ms : List VirtiofsMount) :
    ∀ w, Op.checkSupport ∉ (mountSpecs w ms).2.2 := by
  induction ms with
  | nil => intro w h; simp [mountSpecs] at h
  | cons m ms ih =>
    intro w
    have h1 := mountOneSpec_no_check w m
    rcases ho : mountOneSpec w m with ⟨r0, w0, t0⟩
    rw [ho] at h1
    cases r0 with
    | error e => simp only [mountSpecs, ho]; exact h1
    | ok u =>
      have h2 := ih w0
      rcases hs : mountSpecs w0 ms with ⟨r1, w1, t1⟩
      rw [hs] at h2
      simp only [mountSpecs, ho, hs]
      intro hmem
      rcases List.mem_append.mp hmem with h | h
      · exact h1 h
      · exact h2 h

/-- C9: the directory-ensure routine is idempotent (a second invocation on
the state a successful first invocation produced succeeds, changing nothing),
and the missing ancestors it creates are issued in parent-first order, each
created directory being an ancestor of every directory created after it and
of the target, and each being missing from the initial state. -/
theorem C9_mkdir_p_idempotent_parent_first (w : World) (p : String) (w2 : World) (t : List Op)
    (h : mkdir_p w p = (.ok (), w2, t)) :
    mkdir_p w2 p = (.ok (), w2, [Op.mkdir p]) ∧
    ∃ ds, t = ds.map Op.mkdir ++ [Op.mkdir p] ∧
      List.Pairwise (fun a b => a ∈ ancestorsOf b) ds ∧
      ∀ d ∈ ds, d ∈ ancestorsOf p ∧ d ∉ w.dirs := by
  refine ⟨mkdir_p_idem w p w2 t h, ?_⟩
  refine ⟨((ancestorsOf p).filter (fun d => !decide (d ∈ w.dirs))).reverse, ?_, ?_, ?_⟩
  · have h4 := (mkdir_p_ok w p (by rw [h])).2.2.2
    rw [h] at h4
    simpa [List.map_reverse] using h4
  · exact List.pairwise_reverse.mpr ((ancestorsOf_pairwise p).filter _)
  · intro d hd
    rw [List.mem_reverse] at hd
    have hm := List.mem_filter.mp hd
    exact ⟨hm.1, by simpa using hm.2⟩

/-- Witness for C9: ensuring "/a/b" in the empty world creates "/a" then
"/a/b", and a second invocation succeeds without changing the state. -/
theorem C9_mkdir_p_idempotent_parent_first_witness :
    mkdir_p testWorld "/a/b" =
      (.ok (), { testWorld with dirs := ["/a/b", "/a"] },
        [Op.mkdir "/a", Op.mkdir "/a/b"]) ∧
    (mkdir_p { testWorld with dirs := ["/a/b", "/a"] } "/a/b" =
        (.ok (), { testWorld with dirs := ["/a/b", "/a"] }, [Op.mkdir "/a/b"]) ∧
      ∃ ds, [Op.mkdir "/a", Op.mkdir "/a/b"] = ds.map Op.mkdir ++ [Op.mkdir "/a/b"] ∧
        List.Pairwise (fun a b => a ∈ ancestorsOf b) ds ∧
        ∀ d ∈ ds, d ∈ ancestorsOf "/a/b" ∧ d ∉ testWorld.dirs) :=
  ⟨by decide,
   C9_mkdir_p_idempotent_parent_first testWorld "/a/b"
     { testWorld with dirs := ["/a/b", "/a"] }
     [Op.mkdir "/a", Op.mkdir "/a/b"] (by decide)⟩

/-- C2: for a non-empty spec list the capability check is performed exactly
once, before any other operation; when virtiofs support is absent the call
fails with the unsupported-filesystem error having performed no mkdir or
mount at all; the empty list succeeds without any operation, the capability
check included. -/
theorem C2_capability_gate (w : World) (ms : List VirtiofsMount) :
    (ms = [] → mount_virtiofs_shares w ms = (.ok (), w, [])) ∧
    (ms ≠ [] → ∀ r w2 t, mount_virtiofs_shares w ms = (r, w2, t) →
      ∃ t2, t = Op.checkSupport :: t2 ∧ Op.checkSupport ∉ t2) ∧
    (ms ≠ [] → ∀ fsys, w.procFilesystems = some fsys →
      hasSub "virtiofs".toList fsys.toList = false →
      mount_virtiofs_shares w ms = (.error virtiofsUnsupportedErr, w, [Op.checkSupport])) := by
  refine ⟨?_, ?_, ?_⟩
  · rintro rfl; rfl
  · intro hne r w2 t h
    have hemp : ms.isEmpty = false := by
      cases ms with
      | nil => exact absurd rfl hne
      | cons a l => rfl
    have hshape := check_virtiofs_support_shape w
    rcases hc : check_virtiofs_support w with ⟨rc, wc, tc⟩
    rw [hc] at hshape
    have htc : tc = [Op.checkSupport] := hshape.2
    cases rc with
    | error e =>
      simp only [mount_virtiofs_shares, hemp, hc] at h
      cases h
      exact ⟨[], by rw [htc], by simp⟩
    | ok u =>
      have hnc := mountSpecs_no_check ms wc
      rcases hms : mountSpecs wc ms with ⟨r1, w1, t1⟩
      rw [hms] at hnc
      simp only [mount_virtiofs_shares, hemp, hc, hms] at h
      cases h
      exact ⟨t1, by rw [htc]; rfl, hnc⟩
  · intro hne fsys hpf hsub
    have hemp : ms.isEmpty = false := by
      cases ms with
      | nil => exact absurd rfl hne
      | cons a l => rfl
    have hc : check_virtiofs_support w =
        (.error virtiofsUnsupportedErr, w, [Op.checkSupport]) := by
      unfold check_virtiofs_support
      rw [hpf]
      simp only [hsub]
      rfl
    simp only [mount_virtiofs_shares, hemp, hc]
    rfl

/-- Witness for C2: the empty list is an operation-free success, and a
non-empty list on a kernel without virtiofs fails with only the capability
check in the trace. -/
theorem C2_capability_gate_witness :
    mount_virtiofs_shares testWorld [] = (.ok (), testWorld, []) ∧
    mount_virtiofs_shares { testWorld with procFilesystems := some "nodev proc" }
        [{ tag := "s", path := "/m", with_overlay := false }] =
      (.error virtiofsUnsupportedErr,
       { testWorld with procFilesystems := some "nodev proc" }, [Op.checkSupport]) ∧
    ∃ t2, [Op.checkSupport] = Op.checkSupport :: t2 ∧ Op.checkSupport ∉ t2 :=
  ⟨(C2_capability_gate testWorld []).1 rfl,
   (C2_capability_gate { testWorld with procFilesystems := some "nodev proc" }
       [{ tag := "s", path := "/m", with_overlay := false }]).2.2
     (by decide) "nodev proc" rfl (by decide),
   (C2_capability_gate { testWorld with procFilesystems := some "nodev proc" }
       [{ tag := "s", path := "/m", with_overlay := false }]).2.1
     (by decide) _ _ _
     ((C2_capability_gate { testWorld with procFilesystems := some "nodev proc" }
         [{ tag := "s", path := "/m", with_overlay := false }]).2.2
       (by decide) "nodev proc" rfl (by decide))⟩

theorem mountSpecs_append_err (ms1 ms2 : List VirtiofsMount) :
    ∀ w e w1 t1, mountSpecs w ms1 = (.error e, w1, t1) →
      mountSpecs w (ms1 ++ ms2) = (.error e, w1, t1) := by
  induction ms1 with
  | nil => intro w e w1 t1 h; simp [mountSpecs] at h
  | cons m ms ih =>
    intro w e w1 t1 h
    rcases ho : mountOneSpec w m with ⟨r0, w0, t0⟩
    cases r0 with
    | error e0 =>
      simp only [mountSpecs, ho] at h
      simp only [List.cons_append, mountSpecs, ho]
      exact h
    | ok u =>
      rcases hs1 : mountSpecs w0 ms with ⟨r1, w1x, t1x⟩
      simp only [mountSpecs, ho, hs1] at h
      cases r1 with
      | ok u1 => simp at h
      | error e1 =>
        have h2 := ih w0 e1 w1x t1x hs1
        have h2x : mountSpecs w0 (List.append ms ms2) = (.error e1, w1x, t1x) := h2
        simp only [List.cons_append, mountSpecs, ho]
        rw [h2x]
        exact h

theorem mount_virtiofs_shares_wext (w : World) (ms : List VirtiofsMount) :
    WExt w (mount_virtiofs_shares w ms).2.1 := by
  by_cases hemp : ms.isEmpty = true
  · simp only [mount_virtiofs_shares, hemp, if_true]
    exact WExt.refl w
  · have hshape := check_virtiofs_support_shape w
    rcases hc : check_virtiofs_support w with ⟨rc, wc, tc⟩
    rw [hc] at hshape
    cases rc with
    | error e =>
      simp only [mount_virtiofs_shares, hemp, hc]
      have hwc : wc = w := hshape.1
      rw [hwc]
      exact WExt.refl w
    | ok u =>
      have h2 := mountSpecs_wext ms wc
      rcases hms : mountSpecs wc ms with ⟨r1, w1, t1⟩
      rw [hms] at h2
      simp only [mount_virtiofs_shares, hemp, hc, hms]
      have hwc : wc = w := hshape.1
      rw [hwc] at h2
      exact h2

theorem runMkdir_error (e : String) (w : World) (d : String) (e2 : String) (w2 : World)
    (t : List Op) (h : runMkdir e w d = (.error e2, w2, t)) :
    t = [Op.mkdir d] ∧ d ∈ w.mkdirFailPaths ∧ w2 = w := by
  unfold runMkdir at h
  by_cases hf : d ∈ w.mkdirFailPaths
  · rw [if_pos hf] at h
    cases h
    exact ⟨rfl, hf, rfl⟩
  · rw [if_neg hf] at h
    by_cases hx : d ∈ w.dirs
    · rw [if_pos hx] at h; cases h
    · rw [if_neg hx] at h; cases h

theorem runMount_error (e : String) (w : World) (c : MountCall) (e2 : String) (w2 : World)
    (t : List Op) (h : runMount e w c = (.error e2, w2, t)) :
    t = [Op.mount c] ∧ c ∈ w.mountFailCalls ∧ w2 = w := by
  unfold runMount at h
  by_cases hf : c ∈ w.mountFailCalls
  · rw [if_pos hf] at h
    cases h
    exact ⟨rfl, hf, rfl⟩
  · rw [if_neg hf] at h
    cases h

theorem mkdirSeq_error (pre : String) (ds : List String) :
    ∀ w e w2 t, mkdirSeq pre w ds = (.error e, w2, t) →
      ∃ tp d, t = tp ++ [Op.mkdir d] ∧ d ∈ w.mkdirFailPaths := by
  induction ds with
  | nil => intro w e w2 t h; simp [mkdirSeq] at h
  | cons d ds ih =>
    intro w e w2 t h
    rcases hr : runMkdir (pre ++ d) w d with ⟨r1, w1, t1⟩
    cases r1 with
    | error e1 =>
      simp only [mkdirSeq, hr] at h
      cases h
      obtain ⟨ht1, hf, -⟩ := runMkdir_error (pre ++ d) w d e w2 t hr
      exact ⟨[], d, by rw [ht1]; rfl, hf⟩
    | ok u =>
      rcases hs : mkdirSeq pre w1 ds with ⟨r2, w2x, t2⟩
      simp only [mkdirSeq, hr, hs] at h
      cases r2 with
      | ok u2 => simp at h
      | error e2x =>
        cases h
        obtain ⟨tp, dd, hteq, hfd⟩ := ih w1 e w2 t2 hs
        have hWf : w1.mkdirFailPaths = w.mkdirFailPaths := by
          have := runMkdir_wext (pre ++ d) w d; rw [hr] at this; exact this.2.2.1
        refine ⟨t1 ++ tp, dd, ?_, by rw [← hWf]; exact hfd⟩
        rw [hteq, List.append_assoc]

theorem mkdir_p_error (w : World) (p : String) (e : String) (w2 : World) (t : List Op)
    (h : mkdir_p w p = (.error e, w2, t)) :
    ∃ tp d, t = tp ++ [Op.mkdir d] ∧ d ∈ w.mkdirFailPaths := by
  rcases hs : mkdirSeq "Failed to create directory " w
      (((ancestorsOf p).filter (fun d => !decide (d ∈ w.dirs))).reverse) with ⟨r1, w1, t1⟩
  cases r1 with
  | error e1 =>
    simp only [mkdir_p, hs] at h
    cases h
    exact mkdirSeq_error "Failed to create directory "
      (((ancestorsOf p).filter (fun d => !decide (d ∈ w.dirs))).reverse) w e w2 t hs
  | ok u =>
    rcases hm : runMkdir ("Failed to create directory " ++ p) w1 p with ⟨r2, w2x, t2⟩
    simp only [mkdir_p, hs, hm] at h
    cases r2 with
    | ok u2 => simp at h
    | error e2 =>
      cases h
      obtain ⟨ht2, hf, -⟩ := runMkdir_error ("Failed to create directory " ++ p) w1 p e w2 t2 hm
      have hWf : w1.mkdirFailPaths = w.mkdirFailPaths := by
        have := mkdirSeq_wext "Failed to create directory "
          (((ancestorsOf p).filter (fun d => !decide (d ∈ w.dirs))).reverse) w
        rw [hs] at this; exact this.2.2.1
      exact ⟨t1, p, by rw [ht2], by rw [← hWf]; exact hf⟩

theorem mountOneSpec_error (w : World) (m : VirtiofsMount) (e : String) (w2 : World)
    (t : List Op) (h : mountOneSpec w m = (.error e, w2, t)) :
    ∃ tp op, t = tp ++ [op] ∧ failOp w op := by
  rcases hp : mkdir_p w m.path with ⟨r1, w1, t1⟩
  cases r1 with
  | error e1 =>
    simp only [mountOneSpec, hp] at h
    cases h
    obtain ⟨tp, d, ht, hf⟩ := mkdir_p_error w m.path e w2 t hp
    exact ⟨tp, Op.mkdir d, ht, Or.inl ⟨d, rfl, hf⟩⟩
  | ok u =>
    have hw1 : WExt w w1 := by
      have := mkdir_p_wext w m.path; rw [hp] at this; exact this
    by_cases hov : m.with_overlay = true
    · rcases hsq : mkdirSeq "Failed to create overlay directory " w1 (overlayDirs m)
        with ⟨r2, w2x, t2⟩
      cases r2 with
      | error e2 =>
        simp only [mountOneSpec, hp, hov, if_true, hsq] at h
        cases h
        obtain ⟨tp, d, ht, hf⟩ :=
          mkdirSeq_error "Failed to create overlay directory " (overlayDirs m) w1 e w2 t2 hsq
        refine ⟨t1 ++ tp, Op.mkdir d, by rw [ht, List.append_assoc], Or.inl ⟨d, rfl, ?_⟩⟩
        rw [hw1.2.2.1] at hf
        exact hf
      | ok u2 =>
        have hw2 : WExt w1 w2x := by
          have := mkdirSeq_wext "Failed to create overlay directory " (overlayDirs m) w1
          rw [hsq] at this; exact this
        rcases hl : runMount
            ("Failed to mount virtiofs " ++ m.tag ++ " at " ++ (overlayBase m.tag ++ "/lower"))
            w2x (lowerCall m) with ⟨r3, w3, t3⟩
        cases r3 with
        | error e3 =>
          simp only [mountOneSpec, hp, hov, if_true, hsq, hl] at h
          cases h
          obtain ⟨ht3, hf, -⟩ := runMount_error
            ("Failed to mount virtiofs " ++ m.tag ++ " at " ++ (overlayBase m.tag ++ "/lower"))
            w2x (lowerCall m) e w2 t3 hl
          refine ⟨t1 ++ t2, Op.mount (lowerCall m), by rw [ht3],
            Or.inr ⟨lowerCall m, rfl, ?_⟩⟩
          rw [hw2.2.2.2.1, hw1.2.2.2.1] at hf
          exact hf
        | ok u3 =>
          have hw3 : WExt w2x w3 := by
            have := runMount_wext
              ("Failed to mount virtiofs " ++ m.tag ++ " at " ++ (overlayBase m.tag ++ "/lower"))
              w2x (lowerCall m)
            rw [hl] at this; exact this
          rcases ho2 : runMount ("Failed to mount overlayfs at " ++ m.path) w3 (overlayCall m)
            with ⟨r4, w4, t4⟩
          simp only [mountOneSpec, hp, hov, if_true, hsq, hl, ho2] at h
          cases r4 with
          | ok u4 => simp at h
          | error e4 =>
            cases h
            obtain ⟨ht4, hf, -⟩ := runMount_error ("Failed to mount overlayfs at " ++ m.path)
              w3 (overlayCall m) e w2 t4 ho2
            refine ⟨t1 ++ t2 ++ t3, Op.mount (overlayCall m), by rw [ht4],
              Or.inr ⟨overlayCall m, rfl, ?_⟩⟩
            rw [hw3.2.2.2.1, hw2.2.2.2.1, hw1.2.2.2.1] at hf
            exact hf
    · rcases hd : runMount ("Failed to mount virtiofs " ++ m.tag ++ " at " ++ m.path) w1
          (directCall m) with ⟨r2, w2x, t2⟩
      simp only [mountOneSpec, hp, hov, hd] at h
      cases r2 with
      | ok u2 => simp at h
      | error e2 =>
        cases h
        obtain ⟨ht2, hf, -⟩ := runMount_error
          ("Failed to mount virtiofs " ++ m.tag ++ " at " ++ m.path) w1 (directCall m)
          e w2 t2 hd
        refine ⟨t1, Op.mount (directCall m), by rw [ht2], Or.inr ⟨directCall m, rfl, ?_⟩⟩
        rw [hw1.2.2.2.1] at hf
        exact hf

theorem mountSpecs_error (ms : List VirtiofsMount) :
    ∀ w e w2 t, mountSpecs w ms = (.error e, w2, t) →
      ∃ tp op, t = tp ++ [op] ∧ failOp w op := by
  induction ms with
  | nil => intro w e w2 t h; simp [mountSpecs] at h
  | cons m ms ih =>
    intro w e w2 t h
    rcases ho : mountOneSpec w m with ⟨r0, w0, t0⟩
    cases r0 with
    | error e0 =>
      simp only [mountSpecs, ho] at h
      cases h
      exact mountOneSpec_error w m e w2 t ho
    | ok u =>
      rcases hs : mountSpecs w0 ms with ⟨r1, w1, t1x⟩
      simp only [mountSpecs, ho, hs] at h
      cases r1 with
      | ok u1 => simp at h
      | error e1 =>
        cases h
        obtain ⟨tp, op, ht, hf⟩ := ih w0 e w2 t1x hs
        have hw0 : WExt w w0 := by
          have := mountOneSpec_wext w m; rw [ho] at this; exact this
        refine ⟨t0 ++ tp, op, by rw [ht, List.append_assoc], ?_⟩
        rcases hf with ⟨d, hop, hd⟩ | ⟨c, hop, hc⟩
        · exact Or.inl ⟨d, hop, by rw [← hw0.2.2.1]; exact hd⟩
        · exact Or.inr ⟨c, hop, by rw [← hw0.2.2.2.1]; exact hc⟩

/-- C4: a failure at any point aborts the whole orchestration immediately —
appending further specs after a failing prefix changes nothing, so no
operation of any kind is performed for later specs; a failing run's trace
ends exactly at the failing operation (the capability check, or the mkdir or
mount the fault oracle rejects), so no further operation is performed for
the failing spec itself either; and nothing already completed is undone: the
initial directories and the initial completed mounts survive, the mounts
extended only at the end, in every run. -/
theorem C4_abort_no_rollback :
    (∀ (w : World) (ms1 ms2 : List VirtiofsMount) (e : String) (w1 : World) (t1 : List Op),
       mount_virtiofs_shares w ms1 = (.error e, w1, t1) →
       mount_virtiofs_shares w (ms1 ++ ms2) = (.error e, w1, t1)) ∧
    (∀ (w : World) (ms : List VirtiofsMount) (e : String) (w2 : World) (t : List Op),
       mount_virtiofs_shares w ms = (.error e, w2, t) →
       ∃ tp op, t = tp ++ [op] ∧
         (op = Op.checkSupport ∨
          (∃ d, op = Op.mkdir d ∧ d ∈ w.mkdirFailPaths) ∨
          (∃ c, op = Op.mount c ∧ c ∈ w.mountFailCalls))) ∧
    (∀ (w : World) (ms : List VirtiofsMount),
       (∀ d ∈ w.dirs, d ∈ (mount_virtiofs_shares w ms).2.1.dirs) ∧
       ∃ ext, (mount_virtiofs_shares w ms).2.1.mounts = w.mounts ++ ext) := by
  refine ⟨?_, ?_, ?_⟩
  · intro w ms1 ms2 e w1 t1 h
    cases ms1 with
    | nil => simp [show mount_virtiofs_shares w [] = (.ok (), w, []) from rfl] at h
    | cons m ms1x =>
      have hemp1 : (m :: ms1x).isEmpty = false := rfl
      have hemp2 : (m :: (ms1x ++ ms2)).isEmpty = false := rfl
      rcases hc : check_virtiofs_support w with ⟨rc, wc, tc⟩
      cases rc with
      | error ec =>
        simp only [mount_virtiofs_shares, hemp1, hc] at h
        simp only [List.cons_append, mount_virtiofs_shares, hemp2, hc]
        exact h
      | ok u =>
        rcases hms : mountSpecs wc (m :: ms1x) with ⟨r1, w1x, t1x⟩
        simp only [mount_virtiofs_shares, hemp1, hc, hms] at h
        cases r1 with
        | ok u1 => simp at h
        | error e1 =>
          have happ := mountSpecs_append_err (m :: ms1x) ms2 wc e1 w1x t1x hms
          rw [List.cons_append] at happ
          simp only [List.cons_append, mount_virtiofs_shares, hemp2, hc, happ]
          exact h
  · intro w ms e w2 t h
    by_cases hemp : ms.isEmpty = true
    · simp only [mount_virtiofs_shares, hemp, if_true] at h
      simp at h
    · have hshape := check_virtiofs_support_shape w
      rcases hc : check_virtiofs_support w with ⟨rc, wc, tc⟩
      rw [hc] at hshape
      have htc : tc = [Op.checkSupport] := hshape.2
      have hwc : wc = w := hshape.1
      cases rc with
      | error ec =>
        simp only [mount_virtiofs_shares, hemp, hc] at h
        cases h
        exact ⟨[], Op.checkSupport, by rw [htc]; rfl, Or.inl rfl⟩
      | ok u =>
        rcases hms : mountSpecs wc ms with ⟨r1, w1x, t1x⟩
        simp only [mount_virtiofs_shares, hemp, hc, hms] at h
        cases r1 with
        | ok u1 => simp at h
        | error e1 =>
          cases h
          obtain ⟨tp, op, ht, hf⟩ := mountSpecs_error ms wc e w2 t1x hms
          rw [hwc] at hf
          refine ⟨tc ++ tp, op, by rw [ht, ← List.append_assoc], ?_⟩
          rcases hf with ⟨d, hop, hd⟩ | ⟨c, hop, hc2⟩
          · exact Or.inr (Or.inl ⟨d, hop, hd⟩)
          · exact Or.inr (Or.inr ⟨c, hop, hc2⟩)
  · intro w ms
    have h := mount_virtiofs_shares_wext w ms
    exact ⟨h.1, h.2.1⟩

/-- Witness for C4: with a fault injected into the direct mount of the first
spec, appending a second spec leaves the outcome, final state and trace of
the failing prefix unchanged — nothing is attempted for the second spec —
and the failing run's trace ends at the rejected mount call. -/
theorem C4_abort_no_rollback_witness :
    mount_virtiofs_shares
        { testWorld with mountFailCalls :=
            [{ source := "s", target := "/m", fstype := "virtiofs", rdonly := false, data := "" }] }
        ([{ tag := "s", path := "/m", with_overlay := false }] ++
          [{ tag := "t", path := "/n", with_overlay := true }]) =
      (.error "Failed to mount virtiofs s at /m",
       { testWorld with dirs := ["/m"], mountFailCalls :=
           [{ source := "s", target := "/m", fstype := "virtiofs", rdonly := false, data := "" }] },
       [Op.checkSupport, Op.mkdir "/m",
        Op.mount { source := "s", target := "/m", fstype := "virtiofs", rdonly := false, data := "" }]) ∧
    (∃ tp op,
      ([Op.checkSupport, Op.mkdir "/m",
        Op.mount { source := "s", target := "/m", fstype := "virtiofs", rdonly := false,
                   data := "" }] : List Op) = tp ++ [op] ∧
      (op = Op.checkSupport ∨
       (∃ d, op = Op.mkdir d ∧ d ∈
         ({ testWorld with mountFailCalls :=
              [{ source := "s", target := "/m", fstype := "virtiofs", rdonly := false,
                 data := "" }] } : World).mkdirFailPaths) ∨
       (∃ c, op = Op.mount c ∧ c ∈
         ({ testWorld with mountFailCalls :=
              [{ source := "s", target := "/m", fstype := "virtiofs", rdonly := false,
                 data := "" }] } : World).mountFailCalls))) ∧
    ∃ ext,
      (mount_virtiofs_shares testWorld [{ tag := "s", path := "/m", with_overlay := false }]).2.1.mounts =
        testWorld.mounts ++ ext :=
  ⟨C4_abort_no_rollback.1
     { testWorld with mountFailCalls :=
         [{ source := "s", target := "/m", fstype := "virtiofs", rdonly := false, data := "" }] }
     [{ tag := "s", path := "/m", with_overlay := false }]
     [{ tag := "t", path := "/n", with_overlay := true }] _ _ _ (by decide),
   C4_abort_no_rollback.2.1
     { testWorld with mountFailCalls :=
         [{ source := "s", target := "/m", fstype := "virtiofs", rdonly := false, data := "" }] }
     [{ tag := "s", path := "/m", with_overlay := false }]
     "Failed to mount virtiofs s at /m"
     { testWorld with dirs := ["/m"], mountFailCalls :=
         [{ source := "s", target := "/m", fstype := "virtiofs", rdonly := false, data := "" }] }
     [Op.checkSupport, Op.mkdir "/m",
      Op.mount { source := "s", target := "/m", fstype := "virtiofs", rdonly := false,
                 data := "" }] (by decide),
   (C4_abort_no_rollback.2.2 testWorld [{ tag := "s", path := "/m", with_overlay := false }]).2⟩

/-- C3: for an overlay spec, a successful run issues, after the
directory-ensure of the target path, exactly the mkdir of the overlay base
and of its upper, work and lower children, then the read-only virtiofs mount
at the lower directory, and only then the overlay mount at the target with
lowerdir, upperdir and workdir pointing into that layout; and when the lower
mount fails, the overlay mount is never attempted and the run returns an
error. -/
theorem C3_overlay_two_phase (w : World) (m : VirtiofsMount) (hov : m.with_overlay = true) :
    (∀ w2 t, mountOneSpec w m = (.ok (), w2, t) →
      ∃ tp, (∀ op ∈ tp, ∃ d, op = Op.mkdir d) ∧
        t = tp ++
          [Op.mkdir (overlayBase m.tag),
           Op.mkdir (overlayBase m.tag ++ "/upper"),
           Op.mkdir (overlayBase m.tag ++ "/work"),
           Op.mkdir (overlayBase m.tag ++ "/lower"),
           Op.mount { source := m.tag, target := overlayBase m.tag ++ "/lower",
                      fstype := "virtiofs", rdonly := true, data := "" },
           Op.mount { source := "overlay", target := m.path, fstype := "overlay",
                      rdonly := false,
                      data := "lowerdir=" ++ overlayBase m.tag ++ "/lower" ++
                              ",upperdir=" ++ overlayBase m.tag ++ "/upper" ++
                              ",workdir=" ++ overlayBase m.tag ++ "/work" }]) ∧
    (({ source := m.tag, target := overlayBase m.tag ++ "/lower", fstype := "virtiofs",
        rdonly := true, data := "" } : MountCall) ∈ w.mountFailCalls →
      (∃ e, (mountOneSpec w m).1 = .error e) ∧
      Op.mount { source := "overlay", target := m.path, fstype := "overlay", rdonly := false,
                 data := "lowerdir=" ++ overlayBase m.tag ++ "/lower" ++
                         ",upperdir=" ++ overlayBase m.tag ++ "/upper" ++
                         ",workdir=" ++ overlayBase m.tag ++ "/work" } ∉
        (mountOneSpec w m).2.2) := by
  constructor
  · intro w2 t h
    rcases hp : mkdir_p w m.path with ⟨r1, w1, t1⟩
    cases r1 with
    | error e => simp only [mountOneSpec, hp] at h; simp at h
    | ok u =>
      rcases hsq : mkdirSeq "Failed to create overlay directory " w1 (overlayDirs m)
        with ⟨r2, w2x, t2⟩
      cases r2 with
      | error e2 => simp only [mountOneSpec, hp, hov, hsq] at h; simp at h
      | ok u2 =>
        rcases hl : runMount
            ("Failed to mount virtiofs " ++ m.tag ++ " at " ++ (overlayBase m.tag ++ "/lower"))
            w2x (lowerCall m) with ⟨r3, w3, t3⟩
        cases r3 with
        | error e3 => simp only [mountOneSpec, hp, hov, hsq, hl] at h; simp at h
        | ok u3 =>
          rcases ho2 : runMount ("Failed to mount overlayfs at " ++ m.path) w3 (overlayCall m)
            with ⟨r4, w4, t4⟩
          have ht2 : t2 = (overlayDirs m).map Op.mkdir := by
            have := mkdirSeq_ok "Failed to create overlay directory " (overlayDirs m) w1
              (by rw [hsq])
            rw [hsq] at this; exact this.1
          have ht3 : t3 = [Op.mount (lowerCall m)] := by
            have := runMount_trace
              ("Failed to mount virtiofs " ++ m.tag ++ " at " ++ (overlayBase m.tag ++ "/lower"))
              w2x (lowerCall m)
            rw [hl] at this; exact this
          have ht4 : t4 = [Op.mount (overlayCall m)] := by
            have := runMount_trace ("Failed to mount overlayfs at " ++ m.path) w3 (overlayCall m)
            rw [ho2] at this; exact this
          simp only [mountOneSpec, hp, hov, hsq, hl, ho2] at h
          cases r4 with
          | error e4 => simp at h
          | ok u4 =>
            have ht : t = t1 ++ t2 ++ t3 ++ t4 := (congrArg (fun x => x.2.2) h).symm
            refine ⟨t1, ?_, ?_⟩
            · have := mkdir_p_trace_ops w m.path; rw [hp] at this; exact this
            · rw [ht, ht2, ht3, ht4]
              simp [overlayDirs, lowerCall, overlayCall, List.append_assoc]
  · intro hfail
    rcases hp : mkdir_p w m.path with ⟨r1, w1, t1⟩
    have ht1ops := mkdir_p_trace_ops w m.path
    rw [hp] at ht1ops
    have hne : Op.mount (overlayCall m) ∉ t1 := fun hmem => by
      rcases ht1ops _ hmem with ⟨d, hd⟩; cases hd
    cases r1 with
    | error e =>
      refine ⟨⟨e, ?_⟩, ?_⟩
      · simp only [mountOneSpec, hp]
      · simp only [mountOneSpec, hp]; exact hne
    | ok u =>
      have hw1 : WExt w w1 := by
        have := mkdir_p_wext w m.path; rw [hp] at this; exact this
      rcases hsq : mkdirSeq "Failed to create overlay directory " w1 (overlayDirs m)
        with ⟨r2, w2x, t2⟩
      have ht2ops := mkdirSeq_trace_ops "Failed to create overlay directory " (overlayDirs m) w1
      rw [hsq] at ht2ops
      have hne2 : Op.mount (overlayCall m) ∉ t2 := fun hmem => by
        rcases ht2ops _ hmem with ⟨d, hd⟩; cases hd
      cases r2 with
      | error e2 =>
        refine ⟨⟨e2, ?_⟩, ?_⟩
        · simp only [mountOneSpec, hp, hov, hsq]
          rfl
        · simp only [mountOneSpec, hp, hov, hsq]
          show Op.mount (overlayCall m) ∉ t1 ++ t2
          intro hmem
          rcases List.mem_append.mp hmem with hh | hh
          · exact hne hh
          · exact hne2 hh
      | ok u2 =>
        have hw2 : WExt w1 w2x := by
          have := mkdirSeq_wext "Failed to create overlay directory " (overlayDirs m) w1
          rw [hsq] at this; exact this
        have hfail2 : lowerCall m ∈ w2x.mountFailCalls := by
          rw [hw2.2.2.2.1, hw1.2.2.2.1]; exact hfail
        have hl := runMount_err
          ("Failed to mount virtiofs " ++ m.tag ++ " at " ++ (overlayBase m.tag ++ "/lower"))
          w2x (lowerCall m) hfail2
        refine ⟨⟨"Failed to mount virtiofs " ++ m.tag ++ " at " ++
            (overlayBase m.tag ++ "/lower"), ?_⟩, ?_⟩
        · simp only [mountOneSpec, hp, hov, hsq, hl]
          rfl
        · simp only [mountOneSpec, hp, hov, hsq, hl]
          show Op.mount (overlayCall m) ∉ t1 ++ t2 ++ [Op.mount (lowerCall m)]
          intro hmem
          rcases List.mem_append.mp hmem with hh | hh
          · rcases List.mem_append.mp hh with h3 | h3
            · exact hne h3
            · exact hne2 h3
          · rw [List.mem_singleton] at hh
            simp [overlayCall, lowerCall] at hh

/-- Witness for C3: a successful overlay mount of tag "tag" at "/mnt/x" from
the empty world, and a run with a fault injected into the read-only lower
mount, which errors without attempting the overlay mount. -/
theorem C3_overlay_two_phase_witness :
    (∃ tp, (∀ op ∈ tp, ∃ d, op = Op.mkdir d) ∧
      ([Op.mkdir "/mnt", Op.mkdir "/mnt/x", Op.mkdir "/run/overlayfs/tag",
        Op.mkdir "/run/overlayfs/tag/upper", Op.mkdir "/run/overlayfs/tag/work",
        Op.mkdir "/run/overlayfs/tag/lower",
        Op.mount { source := "tag", target := "/run/overlayfs/tag/lower",
                   fstype := "virtiofs", rdonly := true, data := "" },
        Op.mount { source := "overlay", target := "/mnt/x", fstype := "overlay",
                   rdonly := false,
                   data := "lowerdir=/run/overlayfs/tag/lower,upperdir=/run/overlayfs/tag/upper,workdir=/run/overlayfs/tag/work" }] : List Op) =
        tp ++
          [Op.mkdir "/run/overlayfs/tag", Op.mkdir "/run/overlayfs/tag/upper",
           Op.mkdir "/run/overlayfs/tag/work", Op.mkdir "/run/overlayfs/tag/lower",
           Op.mount { source := "tag", target := "/run/overlayfs/tag/lower",
                      fstype := "virtiofs", rdonly := true, data := "" },
           Op.mount { source := "overlay", target := "/mnt/x", fstype := "overlay",
                      rdonly := false,
                      data := "lowerdir=/run/overlayfs/tag/lower,upperdir=/run/overlayfs/tag/upper,workdir=/run/overlayfs/tag/work" }]) ∧
    ((∃ e, (mountOneSpec
        { testWorld with mountFailCalls :=
            [{ source := "tag", target := "/run/overlayfs/tag/lower", fstype := "virtiofs",
               rdonly := true, data := "" }] }
        { tag := "tag", path := "/mnt/x", with_overlay := true }).1 = .error e) ∧
      Op.mount { source := "overlay", target := "/mnt/x", fstype := "overlay", rdonly := false,
                 data := "lowerdir=/run/overlayfs/tag/lower,upperdir=/run/overlayfs/tag/upper,workdir=/run/overlayfs/tag/work" } ∉
        (mountOneSpec
          { testWorld with mountFailCalls :=
              [{ source := "tag", target := "/run/overlayfs/tag/lower", fstype := "virtiofs",
                 rdonly := true, data := "" }] }
          { tag := "tag", path := "/mnt/x", with_overlay := true }).2.2) :=
  ⟨(C3_overlay_two_phase testWorld { tag := "tag", path := "/mnt/x", with_overlay := true }
      (by decide)).1
    { testWorld with
        dirs := ["/run/overlayfs/tag/lower", "/run/overlayfs/tag/work",
                 "/run/overlayfs/tag/upper", "/run/overlayfs/tag", "/mnt/x", "/mnt"],
        mounts := [{ source := "tag", target := "/run/overlayfs/tag/lower",
                     fstype := "virtiofs", rdonly := true, data := "" },
                   { source := "overlay", target := "/mnt/x", fstype := "overlay",
                     rdonly := false,
                     data := "lowerdir=/run/overlayfs/tag/lower,upperdir=/run/overlayfs/tag/upper,workdir=/run/overlayfs/tag/work" }] }
    [Op.mkdir "/mnt", Op.mkdir "/mnt/x", Op.mkdir "/run/overlayfs/tag",
     Op.mkdir "/run/overlayfs/tag/upper", Op.mkdir "/run/overlayfs/tag/work",
     Op.mkdir "/run/overlayfs/tag/lower",
     Op.mount { source := "tag", target := "/run/overlayfs/tag/lower",
                fstype := "virtiofs", rdonly := true, data := "" },
     Op.mount { source := "overlay", target := "/mnt/x", fstype := "overlay", rdonly := false,
                data := "lowerdir=/run/overlayfs/tag/lower,upperdir=/run/overlayfs/tag/upper,workdir=/run/overlayfs/tag/work" }]
    (by decide),
   (C3_overlay_two_phase
      { testWorld with mountFailCalls :=
          [{ source := "tag", target := "/run/overlayfs/tag/lower", fstype := "virtiofs",
             rdonly := true, data := "" }] }
      { tag := "tag", path := "/mnt/x", with_overlay := true } (by decide)).2 (by decide)⟩

theorem mountKernelList_mount_mem (cs : List MountCall) :
    ∀ w c, Op.mount c ∈ (mountKernelList w cs).2.2 → c ∈ cs := by
  induction cs with
  | nil => intro w c h; simp [mountKernelList] at h
  | cons c0 cs ih =>
    intro w c h
    rcases hm : runMkdir ("Failed to create " ++ c0.target) w c0.target with ⟨r1, w1, t1⟩
    have ht1 : t1 = [Op.mkdir c0.target] := by
      have := runMkdir_trace ("Failed to create " ++ c0.target) w c0.target
      rw [hm] at this; exact this
    cases r1 with
    | error e =>
      simp only [mountKernelList, hm] at h
      rw [ht1, List.mem_singleton] at h
      cases h
    | ok u =>
      rcases hmt : runMount ("Failed to mount " ++ c0.target) w1 c0 with ⟨r2, w2, t2⟩
      have ht2 : t2 = [Op.mount c0] := by
        have := runMount_trace ("Failed to mount " ++ c0.target) w1 c0
        rw [hmt] at this; exact this
      cases r2 with
      | error e2 =>
        simp only [mountKernelList, hm, hmt] at h
        rcases List.mem_append.mp h with h1 | h2
        · rw [ht1, List.mem_singleton] at h1; cases h1
        · rw [ht2, List.mem_singleton] at h2
          injection h2 with h3
          rw [h3]
          exact List.mem_cons_self c0 cs
      | ok u2 =>
        rcases hr : mountKernelList w2 cs with ⟨r3, w3, t3⟩
        simp only [mountKernelList, hm, hmt, hr] at h
        rcases List.mem_append.mp h with h1 | h3
        · rcases List.mem_append.mp h1 with ha | hb
          · rw [ht1, List.mem_singleton] at ha; cases ha
          · rw [ht2, List.mem_singleton] at hb
            injection hb with h4
            rw [h4]
            exact List.mem_cons_self c0 cs
        · have := ih w2 c
          rw [hr] at this
          exact List.mem_cons_of_mem c0 (this h3)

theorem mainRun_trace_sub (w : World) (s : String) :
    ∀ op ∈ (mainRun w s).2.2, op ∈ (mount_kernel_filesystems w).2.2 := by
  intro op hop
  rcases hk : mount_kernel_filesystems w with ⟨r1, w1, t1⟩
  cases r1 with
  | error e => simp only [mainRun, hk] at hop; exact hop
  | ok u =>
    rcases hp : parse_cmdline s with e | cfg
    · simp only [mainRun, hk, hp] at hop; exact hop
    · simp only [mainRun, hk, hp] at hop; exact hop

/-- C1 counterexample: main parses "init.virtiofs=share:/mnt" into a
configuration with one virtiofs mount, yet its run on a virtiofs-capable
world performs no mount with filesystem type virtiofs at all: the orchestrator
is never invoked from main, whose mount stage is a stub. -/
theorem C1_cex :
    ¬ (∀ (w : World) (s : String) (cfg : Config), parse_cmdline s = .ok cfg →
        cfg.virtiofs_mounts ≠ [] →
        ∃ c, Op.mount c ∈ (mainRun w s).2.2 ∧ c.fstype = "virtiofs") := by
  intro hcl
  obtain ⟨c, hc, hf⟩ := hcl testWorld "init.virtiofs=share:/mnt"
    { virtiofs_mounts := [{ tag := "share", path := "/mnt", with_overlay := false }],
      symlinks := [], env_vars := [], command := none } (by decide) (by decide)
  have h1 := mainRun_trace_sub testWorld "init.virtiofs=share:/mnt" _ hc
  have h2 := mountKernelList_mount_mem KERNEL_MOUNTS testWorld c h1
  simp [KERNEL_MOUNTS] at h2
  rcases h2 with rfl | rfl | rfl | rfl <;> simp at hf

/-- C1 amended: main mounts the fixed kernel filesystems and parses the
command line, but the virtiofs stage is a stub: no run of main performs a
virtiofs or overlay mount, whatever the parsed virtiofs_mounts are;
mount_virtiofs_shares exists but is never fed by main. -/
theorem C1_main_never_mounts_virtiofs (w : World) (s : String) :
    ∀ c, Op.mount c ∈ (mainRun w s).2.2 → c.fstype ≠ "virtiofs" ∧ c.fstype ≠ "overlay" := by
  intro c hc
  have h1 := mainRun_trace_sub w s _ hc
  have h2 := mountKernelList_mount_mem KERNEL_MOUNTS w c h1
  simp [KERNEL_MOUNTS] at h2
  rcases h2 with rfl | rfl | rfl | rfl <;> exact ⟨by decide, by decide⟩

/-- Witness for the amended C1: the /proc mount performed by main is neither
a virtiofs nor an overlay mount. -/
theorem C1_main_never_mounts_virtiofs_witness :
    (Op.mount { source := "proc", target := "/proc", fstype := "proc", rdonly := false,
                data := "" } ∈ (mainRun testWorld "init.virtiofs=share:/mnt").2.2) ∧
    ({ source := "proc", target := "/proc", fstype := "proc", rdonly := false,
       data := "" } : MountCall).fstype ≠ "virtiofs" ∧
    ({ source := "proc", target := "/proc", fstype := "proc", rdonly := false,
       data := "" } : MountCall).fstype ≠ "overlay" := by
  refine ⟨by decide, ?_⟩
  exact C1_main_never_mounts_virtiofs testWorld "init.virtiofs=share:/mnt"
    { source := "proc", target := "/proc", fstype := "proc", rdonly := false, data := "" }
    (by decide)

end KdfInit
